import Mathlib

/-!
Verification development for the gsat-and-probsat repository.

The repository contains two parallel implementations of stochastic local
search for SAT:

* a "plain" representation used by `src/gsat.py`, `src/sat.py` and
  `src/randsat.py`: a configuration is a list of `N` signed integers,
  entry `i` (0-based) being `±(i+1)`, and a variable `v` is addressed at
  index `|v| - 1`;

* a "mirrored" representation used by the package files `src/sat/sat.py`
  and `src/sat/gsat.py`: a configuration is a list of `2N+1` entries,
  entry `0` being a placeholder (Python `None`, modelled here as `0`),
  entry `k` (for `1 ≤ k ≤ N`) being `±k`, and entry `2N+1-k` mirroring
  entry `k` so that Python's negative indexing `lst[-k]` (which reads
  `lst[len - k]`) finds the same value.

Namespace `SatP` embeds the plain modules, namespace `SatM` the mirrored
module `src/sat/sat.py`, and namespace `SatM.Gsat` the incremental solver
class of `src/sat/gsat.py`.  Randomness is made explicit: every function
that consumes the Python `random` stream takes the drawn values as
arguments (booleans for `random.choice((True, False))`, a rational in
`[0,1)` for `random.random()`, and an index for `random.choice(seq)`,
taken modulo the length of the sequence).  `numpy.random` draws, which
come from a distinct global generator, are passed as separate arguments.
-/

/-- A clause as in the source: a list of nonzero signed literals. -/
abbrev Clause := List Int

/-- One packet of values drawn from the Python `random` stream for one
loop iteration: `r` models `random.random()`, `idx1` and `idx2` model the
(up to two) `random.choice` calls of that iteration. -/
structure Draw where
  r : ℚ
  idx1 : Nat
  idx2 : Nat
deriving Repr, DecidableEq

namespace SatP

/-- `Configuration.set_random` of `src/sat.py` / `src/gsat.py`: entry `i`
is `i+1` when the drawn boolean is `True`, else `-(i+1)`. -/
def set_random (n : Nat) (bits : Nat → Bool) : List Int :=
  (List.range n).map (fun i => if bits i then ((i : Int) + 1) else -((i : Int) + 1))

/-- `Configuration.flip_variable` of `src/sat.py`: negate the entry at
index `abs(variable_name) - 1`. -/
def flip_variable (e : List Int) (v : Int) : List Int :=
  e.set (v.natAbs - 1) (-(e.getD (v.natAbs - 1) 0))

/-- `Configuration.evaluate_variable` of `src/sat.py`: a literal is true
iff it equals the stored entry for its variable. -/
def evaluate_variable (e : List Int) (l : Int) : Bool :=
  l == e.getD (l.natAbs - 1) 0

/-- `FormulaHelper._find_clauses_for_var` of `src/sat.py`: the clauses
mentioning a variable, in either polarity, in formula order. -/
def find_clauses_for_var (formula : List Clause) (vno : Int) : List Clause :=
  formula.filter (fun c => c.any (fun lit => vno == ((lit.natAbs : Int))))

/-- `FormulaHelper.__getitem__`: the dictionary holds the same list under
the keys `i` and `-i`, so looking up `v` returns the list for `|v|`. -/
def helper (formula : List Clause) (v : Int) : List Clause :=
  find_clauses_for_var formula ((v.natAbs : Int))

/-- `get_unsatisfied_clausules` of `src/gsat.py` (identical to
`get_unsatisfied_clauses` of `src/sat.py`): clauses with no true literal. -/
def get_unsatisfied_clausules (form : List Clause) (e : List Int) : List Clause :=
  form.filter (fun c => !(c.any (evaluate_variable e)))

/-- One iteration of the `_get_best_flips` loop of `src/gsat.py`.  The
state is `(best_change, best_flips, config)`; the source flips the
configuration, measures the unsatisfied clauses among `helper[i]`, and
flips back, which is made explicit here by threading the configuration. -/
def best_flips_step (formula : List Clause) (st : Int × List Int × List Int) (i : Nat) :
    Int × List Int × List Int :=
  let best := st.1
  let flips := st.2.1
  let e := st.2.2
  let ci := helper formula ((i : Int))
  let orig := (get_unsatisfied_clausules ci e).length
  let e1 := flip_variable e ((i : Int))
  let newu := (get_unsatisfied_clausules ci e1).length
  let e2 := flip_variable e1 ((i : Int))
  let change : Int := (newu : Int) - (orig : Int)
  if change = best then (best, flips ++ [(i : Int)], e2)
  else if change < best then (best, [(i : Int)], e2)
  else (best, flips, e2)

/-- `_get_best_flips` of `src/gsat.py`: scan variables `1..nv`; the
initial `best_change` is `len(formula.clauses)` and the source never
reassigns it, so every variable's change is compared against that
constant sentinel: a strictly smaller change restarts the list at that
variable, an exactly equal change appends. -/
def get_best_flips (formula : List Clause) (nv : Nat) (e : List Int) : List Int :=
  ((List.range' 1 nv).foldl (best_flips_step formula)
    ((formula.length : Int), [], e)).2.1

/-- `_get_formula_evals` of `src/randsat.py`: one boolean per clause. -/
def get_formula_evals (form : List Clause) (e : List Int) : List Bool :=
  form.map (fun c => c.any (evaluate_variable e))

/-- `satisfaction_changes_on_flip` of `src/randsat.py`: the pair
`(new_satisfied, new_unsatisfied)` obtained by evaluating the given
clauses before and after flipping `variable` (the source flips back
afterwards, which the pure embedding renders by leaving `e` untouched). -/
def satisfaction_changes_on_flip (form : List Clause) (e : List Int) (v : Int) :
    Nat × Nat :=
  let old := get_formula_evals form e
  let nw := get_formula_evals form (flip_variable e v)
  ((old.zip nw).countP (fun p => p.2 && !p.1),
   (old.zip nw).countP (fun p => !p.2 && p.1))

/-- The literal constant `0.00000000000001` of `src/randsat.py`. -/
def eps : ℚ := 1 / 100000000000000

/-- `f` of `src/randsat.py`, the make/break score
`make ** cm / (eps + break ** cb)`.  Python's float `**` on the
nonnegative bases and exponents involved is passed in as `powfn`. -/
def f (powfn : Nat → ℚ → ℚ) (formula : List Clause) (e : List Int) (v : Int)
    (cm cb : ℚ) : ℚ :=
  let mb := satisfaction_changes_on_flip (helper formula v) e v
  powfn mb.1 cm / (eps + powfn mb.2 cb)

/-- A computable stand-in for Python float `**` that agrees with it on
the points this development evaluates it at (bases `0` and `1`, arbitrary
exponents): `0.0 ** 0.0 = 1.0`, `0.0 ** e = 0.0` for `e ≠ 0`,
`1.0 ** e = 1.0`; on larger bases it returns the base, which keeps the
general facts assumed of `**` (`b ** e ≥ 1` for `b ≥ 1`, `e ≥ 0`). -/
def pyPowModel (b : Nat) (e : ℚ) : ℚ :=
  if e = 0 then 1 else if b = 0 then 0 else ((b : ℚ))

/-- `numpy.random.choice(seq, 1, p)[0]` modelled by inverse-CDF sampling:
`u` is the uniform draw from numpy's global generator; walk down the
probability list subtracting until the draw falls inside a bucket. -/
def np_choice : List Int → List ℚ → ℚ → Int
  | [], _, _ => 0
  | x :: _, [], _ => x
  | x :: xs, q :: qs, u => if u < q then x else np_choice xs qs (u - q)

/-- Per-trial state of `_do_randsat_try`: the best configuration seen,
its satisfied count, and the working configuration. -/
structure RTrial where
  bestEv : List Int
  bestCnt : Nat
  ev : List Int
deriving Repr, DecidableEq

/-- One iteration of the `_do_randsat_try` loop of `src/randsat.py`.
Returns the new state and `true` when the `break` was taken (all clauses
satisfied).  `pyd` holds this iteration's Python-stream draws and `npu`
the numpy-stream draw. -/
def randsat_step (formula : List Clause) (cm cb : ℚ) (powfn : Nat → ℚ → ℚ)
    (pyd : Draw) (npu : ℚ) (st : RTrial) : RTrial × Bool :=
  let unsat := get_unsatisfied_clausules formula st.ev
  let satisfied_count := formula.length - unsat.length
  let st1 := if st.bestCnt ≤ satisfied_count then
      { st with bestCnt := satisfied_count, bestEv := st.ev } else st
  if unsat.length = 0 then (st1, true)
  else
    let c := unsat.getD (pyd.idx1 % unsat.length) []
    let probabilities := c.map (fun var => f powfn formula st1.ev var cm cb)
    let sum_probs := probabilities.sum
    let normalized := probabilities.map (fun p => p / sum_probs)
    let v := np_choice c normalized npu
    ({ st1 with ev := flip_variable st1.ev v }, false)

/-- The `for flip_no in range(max_flips)` loop of `_do_randsat_try`:
`i` is the current value of `flip_no`, `fuel` the number of iterations
still allowed; returns the final state and the last value of `flip_no`. -/
def randsat_loop (formula : List Clause) (cm cb : ℚ) (powfn : Nat → ℚ → ℚ)
    (pyDraws : Nat → Draw) (npDraws : Nat → ℚ) :
    Nat → Nat → RTrial → RTrial × Nat
  | _, 0, st => (st, 0)
  | i, 1, st => ((randsat_step formula cm cb powfn (pyDraws i) (npDraws i) st).1, i)
  | i, fuel + 2, st =>
    let sb := randsat_step formula cm cb powfn (pyDraws i) (npDraws i) st
    if sb.2 then (sb.1, i)
    else randsat_loop formula cm cb powfn pyDraws npDraws (i + 1) (fuel + 1) sb.1

/-- `_do_randsat_try` of `src/randsat.py`: fresh random configuration,
then up to `max_flips` iterations; returns the best configuration, its
satisfied count and the final `flip_no`. -/
def do_randsat_try (formula : List Clause) (n : Nat) (cm cb : ℚ)
    (powfn : Nat → ℚ → ℚ) (bits : Nat → Bool) (pyDraws : Nat → Draw)
    (npDraws : Nat → ℚ) (max_flips : Nat) : RTrial × Nat :=
  randsat_loop formula cm cb powfn pyDraws npDraws 0 max_flips
    ⟨[], 0, set_random n bits⟩

end SatP

namespace SatM

/-- Python list indexing as used by `src/sat/sat.py`: a nonnegative index
reads position `i`, a negative index `-k` reads position `len - k`. -/
def pyGet (ev : List Int) (i : Int) : Int :=
  if 0 ≤ i then ev.getD i.toNat 0 else ev.getD (ev.length - (-i).toNat) 0

/-- `Configuration.set_random` of `src/sat/sat.py`: build the plain list
(the same loop as the plain variant), prepend the `None` placeholder
(modelled as `0`), and append the reversed copy so that negative indices
mirror positive ones.  The source's copy/reverse/extend/pop sequence
produces exactly `[None, e1, ..., eN, eN, ..., e1]`. -/
def set_random (n : Nat) (bits : Nat → Bool) : List Int :=
  0 :: SatP.set_random n bits ++ (SatP.set_random n bits).reverse

/-- `Configuration.flip_variable` of `src/sat/sat.py`: negate the entries
at index `abs(v)` and at Python index `-abs(v)`, i.e. `len - abs(v)`. -/
def flip_variable (ev : List Int) (v : Int) : List Int :=
  let i := v.natAbs
  let ev1 := ev.set i (-(ev.getD i 0))
  ev1.set (ev1.length - i) (-(ev1.getD (ev1.length - i) 0))

/-- `Configuration.evaluate_variable` of `src/sat/sat.py`: index the list
directly with the signed literal and compare. -/
def evaluate_variable (ev : List Int) (l : Int) : Bool :=
  l == pyGet ev l

/-- `Configuration.get_evaluation` of `src/sat/sat.py`: the slice
`variable_evaluation[1 : variable_cnt + 1]`. -/
def get_evaluation (n : Nat) (ev : List Int) : List Int :=
  (ev.drop 1).take n

/-- `FormulaHelper._find_clauses_for_var` of `src/sat/sat.py`: pairs
`(clause, index)` for the clauses mentioning the variable. -/
def find_clauses_for_var (formula : List Clause) (vno : Int) :
    List (Clause × Nat) :=
  (formula.enum.filter (fun p => p.2.any (fun lit => vno == ((lit.natAbs : Int))))).map
    (fun p => (p.2, p.1))

/-- `FormulaHelper.__getitem__` of `src/sat/sat.py`. -/
def helper (formula : List Clause) (v : Int) : List (Clause × Nat) :=
  find_clauses_for_var formula ((v.natAbs : Int))

/-- `get_unsatisfied_clauses` of `src/sat/sat.py`: full scan. -/
def get_unsatisfied_clauses (form : List Clause) (ev : List Int) : List Clause :=
  form.filter (fun c => !(c.any (evaluate_variable ev)))

end SatM

namespace SatM.Gsat

/-- `Gsat.calculate_counts_of_satisfied_literals` of `src/sat/gsat.py`:
for every clause, the number of literals currently true. -/
def calculate_counts (formula : List Clause) (ev : List Int) : List Nat :=
  formula.map (fun c => c.countP (SatM.evaluate_variable ev))

/-- `Gsat.flip_variable` of `src/sat/gsat.py`: flip the configuration,
then overwrite the stored count of every clause in `helper[v]` with a
count recomputed from the flipped configuration. -/
def flip_variable (formula : List Clause) (ev : List Int) (counts : List Nat)
    (v : Int) : List Int × List Nat :=
  let ev2 := SatM.flip_variable ev v
  (ev2, (SatM.helper formula v).foldl
    (fun cs p => cs.set p.2 (p.1.countP (SatM.evaluate_variable ev2))) counts)

/-- `Gsat.sat_change_if_fliped` of `src/sat/gsat.py`: hypothetical change
in the number of satisfied clauses if `vname` were flipped, computed from
the stored per-clause counts without touching any state. -/
def sat_change_if_fliped (formula : List Clause) (ev : List Int)
    (counts : List Nat) (vname : Int) : Int :=
  (SatM.helper formula vname).foldl
    (fun change p =>
      if counts.getD p.2 0 = 0 then change + 1
      else if counts.getD p.2 0 = 1 then
        if p.1.any (fun lit => ((lit.natAbs : Int) == vname) &&
            SatM.evaluate_variable ev lit) then change - 1 else change
      else change) 0

/-- `Gsat.get_unsatisfied_clauses` of `src/sat/gsat.py`: the clauses whose
stored satisfied-literal count is `0`. -/
def get_unsatisfied (formula : List Clause) (counts : List Nat) : List Clause :=
  ((formula.zip counts).filter (fun p => p.2 == 0)).map Prod.fst

/-- One iteration of the `_get_best_flips` loop of `src/sat/gsat.py`. -/
def best_flips_step (formula : List Clause) (ev : List Int) (counts : List Nat)
    (st : Int × List Int) (i : Nat) : Int × List Int :=
  let change := sat_change_if_fliped formula ev counts ((i : Int))
  if change = st.1 then (st.1, st.2 ++ [(i : Int)])
  else if st.1 < change then (st.1, [(i : Int)])
  else st

/-- `Gsat._get_best_flips` of `src/sat/gsat.py`: scan variables `1..nv`;
the initial `best_change` is `-self.clauses_cnt` and the source never
reassigns it, so every variable's `sat_change_if_fliped` is compared
against that constant sentinel: a strictly greater change restarts the
list at that variable, an exactly equal change appends. -/
def get_best_flips (formula : List Clause) (nv : Nat) (ev : List Int)
    (counts : List Nat) : List Int :=
  ((List.range' 1 nv).foldl (best_flips_step formula ev counts)
    (-(formula.length : Int), [])).2

/-- Which branch of the `_do_gsat_try` loop body ran: `halt` for the
`break` on zero unsatisfied clauses, `walk` for the random-walk branch
(`random.random() <= probability`), `greedy` for the greedy branch. -/
inductive StepKind where
  | halt
  | walk
  | greedy
deriving Repr, DecidableEq

/-- Trial state of `_do_gsat_try`: the solver fields `best_config`,
`best_satisfied_count`, `solved`, `working_config` and
`counts_of_satisfied_literals`. -/
structure GTrial where
  bestEv : List Int
  bestCnt : Nat
  solved : Bool
  ev : List Int
  counts : List Nat
deriving Repr, DecidableEq

/-- One iteration of the `_do_gsat_try` loop of `src/sat/gsat.py`:
record the best-so-far (ties replace), break when solved, otherwise do a
random-walk or a greedy flip depending on the drawn `r`. -/
def gsat_step (formula : List Clause) (nv : Nat) (probability : ℚ) (d : Draw)
    (st : GTrial) : GTrial × StepKind :=
  let unsat := get_unsatisfied formula st.counts
  let satisfied_count := formula.length - unsat.length
  let st1 := if st.bestCnt ≤ satisfied_count then
      { st with bestCnt := satisfied_count, bestEv := st.ev } else st
  if unsat.length = 0 then ({ st1 with solved := true }, .halt)
  else if d.r ≤ probability then
    let c := unsat.getD (d.idx1 % unsat.length) []
    let v := c.getD (d.idx2 % c.length) 0
    let st2 := flip_variable formula st1.ev st1.counts v
    ({ st1 with ev := st2.1, counts := st2.2 }, .walk)
  else
    let bf := get_best_flips formula nv st1.ev st1.counts
    let v := bf.getD (d.idx1 % bf.length) 0
    let st2 := flip_variable formula st1.ev st1.counts v
    ({ st1 with ev := st2.1, counts := st2.2 }, .greedy)

/-- The `for iter_no in range(max_iters)` loop of `_do_gsat_try`: `i` is
the current `iter_no`, `fuel` the number of iterations still allowed;
returns the final state and the last value of `iter_no`. -/
def gsat_loop (formula : List Clause) (nv : Nat) (probability : ℚ)
    (draws : Nat → Draw) : Nat → Nat → GTrial → GTrial × Nat
  | _, 0, st => (st, 0)
  | i, 1, st => ((gsat_step formula nv probability (draws i) st).1, i)
  | i, fuel + 2, st =>
    let sk := gsat_step formula nv probability (draws i) st
    if sk.2 = .halt then (sk.1, i)
    else gsat_loop formula nv probability draws (i + 1) (fuel + 1) sk.1

/-- `Gsat._do_gsat_try` of `src/sat/gsat.py`: re-randomize the working
configuration, recompute all counts, then run the iteration loop.  The
incoming triple is the persistent solver state
`(best_config, best_satisfied_count, solved)`. -/
def do_gsat_try (formula : List Clause) (nv : Nat) (probability : ℚ)
    (max_iters : Nat) (bits : Nat → Bool) (draws : Nat → Draw)
    (best : List Int × Nat × Bool) : GTrial × Nat :=
  let ev := SatM.set_random nv bits
  gsat_loop formula nv probability draws 0 max_iters
    ⟨best.1, best.2.1, best.2.2, ev, calculate_counts formula ev⟩

/-- The `for try_no in range(max_tries)` loop of `Gsat.run`: `t` is the
current `try_no`, `fuel` the number of tries still allowed; returns the
final solver state, the final `try_no` and the final trial's `iter_cnt`. -/
def run_loop (formula : List Clause) (nv : Nat) (probability : ℚ)
    (max_iters : Nat) (bitsT : Nat → Nat → Bool) (drawsT : Nat → Nat → Draw) :
    Nat → Nat → (List Int × Nat × Bool) → (List Int × Nat × Bool) × Nat × Nat
  | _, 0, best => (best, 0, 0)
  | t, 1, best =>
    let si := do_gsat_try formula nv probability max_iters (bitsT t) (drawsT t) best
    ((si.1.bestEv, si.1.bestCnt, si.1.solved), t, si.2)
  | t, fuel + 2, best =>
    let si := do_gsat_try formula nv probability max_iters (bitsT t) (drawsT t) best
    let best' := (si.1.bestEv, si.1.bestCnt, si.1.solved)
    if si.1.solved then (best', t, si.2)
    else run_loop formula nv probability max_iters bitsT drawsT (t + 1) (fuel + 1) best'

/-- `Gsat.run` of `src/sat/gsat.py`: run up to `max_tries` trials,
stopping at the first solved one, and return
`(try_no * max_iters + iter_cnt + 1, best_satisfied_count,
best_config.get_evaluation())`. -/
def run (formula : List Clause) (nv : Nat) (probability : ℚ)
    (max_tries max_iters : Nat) (bitsT : Nat → Nat → Bool)
    (drawsT : Nat → Nat → Draw) : Nat × Nat × List Int :=
  let r := run_loop formula nv probability max_iters bitsT drawsT 0 max_tries
    ([], 0, false)
  (r.2.1 * max_iters + r.2.2 + 1, r.1.2.1, SatM.get_evaluation nv r.1.1)

/-- Whether one trial, run in isolation from a fresh configuration,
reaches the solved state (used to state when the outer loop stops). -/
def trial_solved (formula : List Clause) (nv : Nat) (probability : ℚ)
    (max_iters : Nat) (bits : Nat → Bool) (draws : Nat → Draw) : Bool :=
  (do_gsat_try formula nv probability max_iters bits draws ([], 0, false)).1.solved

end SatM.Gsat

/-- Invariant of the plain representation: a total configuration over `n`
variables stores, at index `k`, either `k+1` or `-(k+1)`. -/
def PlainInv (n : Nat) (e : List Int) : Prop :=
  e.length = n ∧ ∀ k < n, e.getD k 0 = (k : Int) + 1 ∨ e.getD k 0 = -((k : Int) + 1)

instance (n : Nat) (e : List Int) : Decidable (PlainInv n e) := by
  unfold PlainInv; infer_instance

/-- Invariant of the mirrored representation: length `2n+1`, entry `k+1`
is `±(k+1)`, and entry `2n-k` (Python index `-(k+1)`) mirrors entry `k+1`.
Entry `0` is the placeholder and is never read or written for variables
`1..n`. -/
def MirrorInv (n : Nat) (ev : List Int) : Prop :=
  ev.length = 2*n+1 ∧ ∀ k < n,
    (ev.getD (k+1) 0 = (k : Int)+1 ∨ ev.getD (k+1) 0 = -((k : Int)+1)) ∧
    ev.getD (2*n - k) 0 = ev.getD (k+1) 0

instance (n : Nat) (ev : List Int) : Decidable (MirrorInv n ev) := by
  unfold MirrorInv; infer_instance

/-- The two `set_random`s produce related configurations: the mirrored
list stores the plain list at positions `1..n`. -/
def Related (n : Nat) (e ev : List Int) : Prop :=
  PlainInv n e ∧ MirrorInv n ev ∧ ∀ k < n, ev.getD (k+1) 0 = e.getD k 0

instance (n : Nat) (e ev : List Int) : Decidable (Related n e ev) := by
  unfold Related; infer_instance

/-- The sequence of `Gsat.flip_variable` updates within one trial,
starting from a given state. -/
def SatM.Gsat.apply_flips (formula : List Clause) (st : List Int × List Nat)
    (vs : List Int) : List Int × List Nat :=
  vs.foldl (fun s v => SatM.Gsat.flip_variable formula s.1 s.2 v) st

/-- The working state of a trial after `set_random`, the initial full
recomputation, and a sequence of flips. -/
def SatM.Gsat.trial_state (formula : List Clause) (n : Nat) (bits : Nat → Bool)
    (vs : List Int) : List Int × List Nat :=
  SatM.Gsat.apply_flips formula
    (SatM.set_random n bits,
      SatM.Gsat.calculate_counts formula (SatM.set_random n bits)) vs

/-- Per-clause contribution inside the `sat_change_if_fliped` loop:
`+1` for a clause whose stored count is `0`, `-1` for a clause whose
stored count is `1` when the single true literal belongs to `vname`,
otherwise `0`. -/
def SatM.Gsat.satContrib (ev : List Int) (counts : List Nat) (vname : Int)
    (p : Clause × Nat) : Int :=
  if counts.getD p.2 0 = 0 then 1
  else if counts.getD p.2 0 = 1 then
    if p.1.any (fun lit => ((lit.natAbs : Int) == vname) &&
        SatM.evaluate_variable ev lit) then -1 else 0
  else 0

/-- The number of satisfied clauses, computed the way the sources do:
total clause count minus the length of the unsatisfied-clause scan. -/
def SatM.satisfied_count (formula : List Clause) (ev : List Int) : Nat :=
  formula.length - (SatM.get_unsatisfied_clauses formula ev).length

/-- The working invariant of a `Gsat` trial state: the configuration has
the mirrored shape, the incremental counts equal a full recomputation,
and the cached best count is the satisfied-clause count of the cached
best configuration. -/
def SatM.Gsat.GInv (formula : List Clause) (n : Nat) (st : SatM.Gsat.GTrial) : Prop :=
  MirrorInv n st.ev
    ∧ st.counts = SatM.Gsat.calculate_counts formula st.ev
    ∧ st.bestCnt = SatM.satisfied_count formula st.bestEv

section ListToolbox

variable {α : Type} {β : Type}

/-- `getD` after `set` at the written index. -/
theorem getD_set_eq (l : List α) (i : Nat) (x d : α) (h : i < l.length) :
    (l.set i x).getD i d = x := by
  simp [List.getD_eq_getElem?_getD, List.getElem?_set_self', h]

/-- `getD` after `set` at a different index. -/
theorem getD_set_ne (l : List α) (i j : Nat) (x d : α) (h : i ≠ j) :
    (l.set i x).getD j d = l.getD j d := by
  simp [List.getD_eq_getElem?_getD, List.getElem?_set_ne h]

/-- Setting an entry to its own value is the identity. -/
theorem set_getD_self (l : List α) (i : Nat) (d : α) (h : i < l.length) :
    l.set i (l.getD i d) = l := by
  apply List.ext_getElem?
  intro j
  by_cases hj : i = j
  · subst hj
    simp [List.getElem?_set_self', List.getD_eq_getElem l d h, h]
  · simp [List.getElem?_set_ne hj]

/-- Setting past the end is the identity. -/
theorem set_of_le_length (l : List α) (i : Nat) (x : α) (h : l.length ≤ i) :
    l.set i x = l :=
  List.set_eq_of_length_le h

/-- A fold that only adds equals the initial value plus the sum of the
summands. -/
theorem foldl_add_eq_sum (g : α → Int) (l : List α) (a : Int) :
    l.foldl (fun acc x => acc + g x) a = a + (l.map g).sum := by
  induction l generalizing a with
  | nil => simp
  | cons x xs ih => simp [ih, add_assoc]

/-- Summing over a filtered list is summing `if`-guarded terms over the
whole list. -/
theorem sum_map_filter_eq (q : α → Bool) (g : α → Int) (l : List α) :
    ((l.filter q).map g).sum = (l.map (fun x => if q x then g x else 0)).sum := by
  induction l with
  | nil => rfl
  | cons x xs ih =>
    by_cases hx : q x <;> simp [List.filter_cons, hx, ih]

/-- Difference of two sums as a sum of differences. -/
theorem sum_map_sub (f g : α → Int) (l : List α) :
    (l.map (fun x => f x - g x)).sum = (l.map f).sum - (l.map g).sum := by
  induction l with
  | nil => rfl
  | cons x xs ih => simp [ih]; ring

/-- `countP` as a sum of indicators. -/
theorem countP_eq_sum_ind (p : α → Bool) (l : List α) :
    ((l.countP p : Int)) = (l.map (fun x => if p x then (1 : Int) else 0)).sum := by
  induction l with
  | nil => rfl
  | cons x xs ih =>
    by_cases hx : p x <;> simp [List.countP_cons, hx, ih, add_comm]

/-- Pointwise flipping a predicate on the elements singled out by `cond`
rebalances `countP` by the flipped-in and flipped-out elements. -/
theorem countP_flip_balance (pb pa cond : α → Bool) (c : List α)
    (h : ∀ l ∈ c, pa l = if cond l then !pb l else pb l) :
    c.countP pa + c.countP (fun l => cond l && pb l) =
      c.countP pb + c.countP (fun l => cond l && !pb l) := by
  induction c with
  | nil => rfl
  | cons x xs ih =>
    have hx := h x (List.mem_cons_self x xs)
    have ihs := ih (fun l hl => h l (List.mem_cons_of_mem x hl))
    by_cases hc : cond x
    · by_cases hb : pb x <;> simp [List.countP_cons, hx, hc, hb] <;> omega
    · by_cases hb : pb x <;> simp [List.countP_cons, hx, hc, hb] <;> omega

/-- Splitting `countP q` along a second predicate `p`. -/
theorem countP_split (q p : α → Bool) (c : List α) :
    c.countP q = c.countP (fun l => q l && p l) + c.countP (fun l => q l && !p l) := by
  induction c with
  | nil => rfl
  | cons x xs ih =>
    by_cases hq : q x
    · by_cases hp : p x <;> simp [List.countP_cons, hq, hp, ih] <;> omega
    · simp [List.countP_cons, hq, ih]

/-- `countP` only depends on the predicate's values on the list. -/
theorem countP_congr_mem (p q : α → Bool) (l : List α)
    (h : ∀ a ∈ l, p a = q a) : l.countP p = l.countP q := by
  induction l with
  | nil => rfl
  | cons x xs ih =>
    have hx := h x (List.mem_cons_self x xs)
    have ihs := ih (fun a ha => h a (List.mem_cons_of_mem x ha))
    by_cases hp : p x <;> simp [List.countP_cons, hp, ← hx, ihs]

/-- `any` only depends on the predicate's values on the list. -/
theorem any_congr_mem (p q : α → Bool) (l : List α)
    (h : ∀ a ∈ l, p a = q a) : l.any p = l.any q := by
  induction l with
  | nil => rfl
  | cons x xs ih =>
    have hx := h x (List.mem_cons_self x xs)
    have ihs := ih (fun a ha => h a (List.mem_cons_of_mem x ha))
    simp [List.any_cons, hx, ihs]

/-- `any` is `countP ≠ 0`. -/
theorem any_iff_countP_ne (p : α → Bool) (l : List α) :
    l.any p = true ↔ l.countP p ≠ 0 := by
  rw [List.any_eq_true]
  constructor
  · rintro ⟨a, ha, hp⟩ h0
    exact absurd hp (by simpa using (List.countP_eq_zero.mp h0) a ha)
  · intro h
    rcases List.countP_pos_iff.mp (Nat.pos_of_ne_zero h) with ⟨a, ha, hp⟩
    exact ⟨a, ha, hp⟩

end ListToolbox

section PlainConfig


theorem SatP.set_random_length_plain (n : Nat) (bits : Nat → Bool) :
    (SatP.set_random n bits).length = n := by
  simp [SatP.set_random]

theorem SatP.set_random_getD (n : Nat) (bits : Nat → Bool) (k : Nat) (hk : k < n) :
    (SatP.set_random n bits).getD k 0 =
      if bits k then ((k : Int) + 1) else -((k : Int) + 1) := by
  have hlen : k < (SatP.set_random n bits).length := by
    rw [SatP.set_random_length_plain]; exact hk
  rw [List.getD_eq_getElem _ _ hlen]
  simp [SatP.set_random]

theorem SatP.set_random_plainInv (n : Nat) (bits : Nat → Bool) :
    PlainInv n (SatP.set_random n bits) := by
  refine ⟨SatP.set_random_length_plain n bits, fun k hk => ?_⟩
  rw [SatP.set_random_getD n bits k hk]
  by_cases h : bits k <;> simp [h]

theorem SatP.flip_length_plain (e : List Int) (v : Int) :
    (SatP.flip_variable e v).length = e.length := by
  simp [SatP.flip_variable]

theorem SatP.flip_getD_eq (e : List Int) (v : Int)
    (h : v.natAbs - 1 < e.length) :
    (SatP.flip_variable e v).getD (v.natAbs - 1) 0 = -(e.getD (v.natAbs - 1) 0) := by
  unfold SatP.flip_variable
  exact getD_set_eq e _ _ 0 h

theorem SatP.flip_getD_ne (e : List Int) (v : Int) (j : Nat)
    (h : v.natAbs - 1 ≠ j) :
    (SatP.flip_variable e v).getD j 0 = e.getD j 0 := by
  unfold SatP.flip_variable
  exact getD_set_ne e _ _ _ 0 h

theorem SatP.flip_plainInv {n : Nat} {e : List Int} (v : Int)
    (hinv : PlainInv n e) : PlainInv n (SatP.flip_variable e v) := by
  obtain ⟨hlen, hent⟩ := hinv
  refine ⟨by rw [SatP.flip_length_plain, hlen], fun k hk => ?_⟩
  by_cases hj : v.natAbs - 1 = k
  · subst hj
    rw [SatP.flip_getD_eq e v (by rw [hlen]; exact hk)]
    rcases hent _ hk with h | h
    · right; rw [h]
    · left; rw [h, neg_neg]
  · rw [SatP.flip_getD_ne e v k hj]
    exact hent k hk

/-- Double flip restores the plain configuration. -/
theorem SatP.flip_flip_plain (e : List Int) (v : Int) :
    SatP.flip_variable (SatP.flip_variable e v) v = e := by
  by_cases h : v.natAbs - 1 < e.length
  · unfold SatP.flip_variable
    rw [getD_set_eq _ _ _ _ h, neg_neg, List.set_set]
    exact set_getD_self e _ 0 h
  · push_neg at h
    unfold SatP.flip_variable
    rw [set_of_le_length _ _ _ h, set_of_le_length _ _ _ h]

/-- For a literal that can only be `x` or `-x` with `x ≠ 0`, comparing
against the negated entry is the boolean negation of comparing against
the entry. -/
theorem beq_neg_flip (l x : Int) (hx0 : x ≠ 0) (hlx : l = x ∨ l = -x) :
    (l == -x) = !(l == x) := by
  rcases hlx with h | h <;> rw [h]
  · have h1 : (x == -x) = false := beq_eq_false_iff_ne.mpr (by omega)
    rw [h1, beq_self_eq_true]
    rfl
  · have h1 : (-x == x) = false := beq_eq_false_iff_ne.mpr (by omega)
    rw [h1, beq_self_eq_true]
    rfl

/-- Flipping `v` toggles the evaluation of the literals of variable
`|v|` (needs the invariant: the stored entry is `±|l|`). -/
theorem SatP.evaluate_flip_same_plain {n : Nat} {e : List Int} (v l : Int)
    (hinv : PlainInv n e) (hl1 : 1 ≤ l.natAbs) (hln : l.natAbs ≤ n)
    (heq : v.natAbs = l.natAbs) :
    SatP.evaluate_variable (SatP.flip_variable e v) l = !SatP.evaluate_variable e l := by
  obtain ⟨hlen, hent⟩ := hinv
  have hk : l.natAbs - 1 < n := by omega
  have hkl : l.natAbs - 1 < e.length := by omega
  have hflip : (SatP.flip_variable e v).getD (l.natAbs - 1) 0 =
      -(e.getD (l.natAbs - 1) 0) := by
    rw [← heq]
    exact SatP.flip_getD_eq e v (by rw [heq]; exact hkl)
  have hx := hent _ hk
  have hcast : ((l.natAbs - 1 : Nat) : Int) + 1 = (l.natAbs : Int) := by omega
  rw [hcast] at hx
  have habs : l = (l.natAbs : Int) ∨ l = -(l.natAbs : Int) := Int.natAbs_eq l
  have hx0 : e.getD (l.natAbs - 1) 0 ≠ 0 := by
    rcases hx with h | h <;> rw [h] <;> omega
  have hlx : l = e.getD (l.natAbs - 1) 0 ∨ l = -(e.getD (l.natAbs - 1) 0) := by
    rcases hx with h | h
    · rw [h]; exact habs
    · rw [h, neg_neg]; tauto
  unfold SatP.evaluate_variable
  rw [hflip]
  exact beq_neg_flip l _ hx0 hlx

/-- Flipping `v` leaves the evaluation of other variables unchanged. -/
theorem SatP.evaluate_flip_ne_plain (e : List Int) (v l : Int)
    (hne : v.natAbs ≠ l.natAbs) (hl1 : 1 ≤ l.natAbs) (hv1 : 1 ≤ v.natAbs) :
    SatP.evaluate_variable (SatP.flip_variable e v) l = SatP.evaluate_variable e l := by
  unfold SatP.evaluate_variable
  rw [SatP.flip_getD_ne e v _ (by omega)]

end PlainConfig

section MirrorConfig


/-- Under the invariant, Python indexing by a literal of either sign
reads the entry at the literal's absolute value. -/
theorem SatM.pyGet_eq {n : Nat} {ev : List Int} (hinv : MirrorInv n ev)
    (l : Int) (hl1 : 1 ≤ l.natAbs) (hln : l.natAbs ≤ n) :
    SatM.pyGet ev l = ev.getD l.natAbs 0 := by
  unfold SatM.pyGet
  by_cases h : 0 ≤ l
  · rw [if_pos h]
    have : l.toNat = l.natAbs := by omega
    rw [this]
  · rw [if_neg h]
    have h2 : (-l).toNat = l.natAbs := by omega
    rw [h2, hinv.1]
    have hk : l.natAbs - 1 < n := by omega
    have hmir := (hinv.2 _ hk).2
    have heq1 : 2*n + 1 - l.natAbs = 2*n - (l.natAbs - 1) := by omega
    have heq2 : l.natAbs - 1 + 1 = l.natAbs := by omega
    rw [heq1, hmir, heq2]

theorem SatM.flip_length (ev : List Int) (v : Int) :
    (SatM.flip_variable ev v).length = ev.length := by
  simp [SatM.flip_variable]

/-- Index-wise description of the mirrored flip: the two positions of
variable `|v|` are negated, everything else is untouched. -/
theorem SatM.flip_getD {n : Nat} (ev : List Int) (v : Int)
    (hlen : ev.length = 2*n+1) (hv1 : 1 ≤ v.natAbs) (hvn : v.natAbs ≤ n)
    (j : Nat) :
    (SatM.flip_variable ev v).getD j 0 =
      if j = v.natAbs ∨ j = 2*n+1 - v.natAbs then -(ev.getD j 0)
      else ev.getD j 0 := by
  have hi : v.natAbs < ev.length := by omega
  have hlen1 : (ev.set v.natAbs (-(ev.getD v.natAbs 0))).length = ev.length := by
    simp
  have hi2len : ev.length - v.natAbs < ev.length := by omega
  have hne : v.natAbs ≠ ev.length - v.natAbs := by omega
  unfold SatM.flip_variable
  simp only [hlen1]
  by_cases h1 : j = v.natAbs
  · subst h1
    rw [if_pos (Or.inl rfl)]
    rw [getD_set_ne _ _ _ _ _ (by omega), getD_set_eq _ _ _ _ hi]
  · by_cases h2 : j = 2*n+1 - v.natAbs
    · subst h2
      rw [if_pos (Or.inr rfl)]
      have hj : ev.length - v.natAbs = 2*n+1 - v.natAbs := by omega
      rw [hj, getD_set_eq _ _ _ _ (by omega), getD_set_ne _ _ _ _ _ (by omega)]
    · rw [if_neg (by tauto)]
      rw [getD_set_ne _ _ _ _ _ (by omega), getD_set_ne _ _ _ _ _ (by omega)]

theorem SatM.flip_mirrorInv {n : Nat} {ev : List Int} (v : Int)
    (hinv : MirrorInv n ev) (hv1 : 1 ≤ v.natAbs) (hvn : v.natAbs ≤ n) :
    MirrorInv n (SatM.flip_variable ev v) := by
  obtain ⟨hlen, hent⟩ := hinv
  refine ⟨by rw [SatM.flip_length, hlen], fun k hk => ?_⟩
  have hG := SatM.flip_getD (n := n) ev v hlen hv1 hvn
  have hk1 : ¬ (k + 1 = 2*n+1 - v.natAbs) := by omega
  have hk2 : ¬ (2*n - k = v.natAbs) := by omega
  by_cases hflip : k + 1 = v.natAbs
  · have hmir : 2*n - k = 2*n+1 - v.natAbs := by omega
    rw [hG (k+1), hG (2*n - k), if_pos (Or.inl hflip), if_pos (Or.inr hmir),
      (hent k hk).2]
    constructor
    · rcases (hent k hk).1 with h | h
      · right; rw [h]
      · left; rw [h, neg_neg]
    · rfl
  · have hmir : ¬ (2*n - k = 2*n+1 - v.natAbs) := by omega
    rw [hG (k+1), hG (2*n - k), if_neg (by tauto), if_neg (by tauto)]
    exact hent k hk

/-- Double flip restores the mirrored configuration. -/
theorem SatM.flip_flip {n : Nat} (ev : List Int) (v : Int)
    (hlen : ev.length = 2*n+1) (hv1 : 1 ≤ v.natAbs) (hvn : v.natAbs ≤ n) :
    SatM.flip_variable (SatM.flip_variable ev v) v = ev := by
  have hlen1 : (SatM.flip_variable ev v).length = 2*n+1 := by
    rw [SatM.flip_length, hlen]
  apply List.ext_getElem
  · rw [SatM.flip_length, SatM.flip_length]
  · intro j hj1 hj2
    have hG1 := SatM.flip_getD (n := n) (SatM.flip_variable ev v) v hlen1 hv1 hvn j
    have hG2 := SatM.flip_getD (n := n) ev v hlen hv1 hvn j
    have hgd : (SatM.flip_variable (SatM.flip_variable ev v) v).getD j 0 =
        ev.getD j 0 := by
      rw [hG1, hG2]
      by_cases h : j = v.natAbs ∨ j = 2*n+1 - v.natAbs
      · rw [if_pos h, if_pos h, neg_neg]
      · rw [if_neg h, if_neg h]
    rw [← List.getD_eq_getElem _ 0 hj1, ← List.getD_eq_getElem _ 0 hj2]
    exact hgd

/-- Flipping `v` toggles the evaluation of the literals of variable
`|v|` in the mirrored representation. -/
theorem SatM.evaluate_flip_same {n : Nat} {ev : List Int} (v l : Int)
    (hinv : MirrorInv n ev) (hl1 : 1 ≤ l.natAbs) (hln : l.natAbs ≤ n)
    (heq : v.natAbs = l.natAbs) :
    SatM.evaluate_variable (SatM.flip_variable ev v) l
      = !SatM.evaluate_variable ev l := by
  have hinv' := SatM.flip_mirrorInv v hinv (by omega) (by omega)
  unfold SatM.evaluate_variable
  rw [SatM.pyGet_eq hinv' l hl1 hln, SatM.pyGet_eq hinv l hl1 hln]
  rw [SatM.flip_getD (n := n) ev v hinv.1 (by omega) (by omega) l.natAbs,
    if_pos (Or.inl heq.symm)]
  have hk : l.natAbs - 1 < n := by omega
  have hx := (hinv.2 _ hk).1
  have heq2 : l.natAbs - 1 + 1 = l.natAbs := by omega
  have hcast : ((l.natAbs - 1 : Nat) : Int) + 1 = (l.natAbs : Int) := by omega
  rw [heq2, hcast] at hx
  have habs : l = (l.natAbs : Int) ∨ l = -(l.natAbs : Int) := Int.natAbs_eq l
  have hx0 : ev.getD l.natAbs 0 ≠ 0 := by
    rcases hx with h | h <;> rw [h] <;> omega
  have hlx : l = ev.getD l.natAbs 0 ∨ l = -(ev.getD l.natAbs 0) := by
    rcases hx with h | h
    · rw [h]; exact habs
    · rw [h, neg_neg]; tauto
  exact beq_neg_flip l _ hx0 hlx

/-- Flipping `v` leaves the evaluation of other variables unchanged. -/
theorem SatM.evaluate_flip_ne {n : Nat} {ev : List Int} (v l : Int)
    (hinv : MirrorInv n ev) (hl1 : 1 ≤ l.natAbs) (hln : l.natAbs ≤ n)
    (hv1 : 1 ≤ v.natAbs) (hvn : v.natAbs ≤ n) (hne : v.natAbs ≠ l.natAbs) :
    SatM.evaluate_variable (SatM.flip_variable ev v) l
      = SatM.evaluate_variable ev l := by
  have hinv' := SatM.flip_mirrorInv v hinv hv1 hvn
  unfold SatM.evaluate_variable
  rw [SatM.pyGet_eq hinv' l hl1 hln, SatM.pyGet_eq hinv l hl1 hln]
  rw [SatM.flip_getD (n := n) ev v hinv.1 hv1 hvn l.natAbs,
    if_neg (by omega)]

end MirrorConfig

section MirrorSetRandom

theorem SatM.set_random_length (n : Nat) (bits : Nat → Bool) :
    (SatM.set_random n bits).length = 2*n+1 := by
  simp [SatM.set_random, SatP.set_random_length_plain]
  omega

theorem SatM.set_random_getD_pos (n : Nat) (bits : Nat → Bool) (k : Nat)
    (hk : k < n) :
    (SatM.set_random n bits).getD (k+1) 0 = (SatP.set_random n bits).getD k 0 := by
  unfold SatM.set_random
  have hk' : k + 1 < (0 :: SatP.set_random n bits).length := by
    rw [List.length_cons, SatP.set_random_length_plain]; omega
  rw [List.getD_append _ _ _ _ hk', List.getD_cons_succ]

theorem SatM.set_random_getD_mirror (n : Nat) (bits : Nat → Bool) (k : Nat)
    (hk : k < n) :
    (SatM.set_random n bits).getD (2*n - k) 0
      = (SatM.set_random n bits).getD (k+1) 0 := by
  rw [SatM.set_random_getD_pos n bits k hk]
  unfold SatM.set_random
  have hlenp : (SatP.set_random n bits).length = n := SatP.set_random_length_plain n bits
  have hge : (0 :: SatP.set_random n bits).length ≤ 2*n - k := by
    rw [List.length_cons, hlenp]; omega
  rw [List.getD_append_right _ _ _ _ hge]
  have hidx : 2*n - k - (0 :: SatP.set_random n bits).length = n - k - 1 := by
    rw [List.length_cons, hlenp]; omega
  rw [hidx]
  have hlt : n - k - 1 < (SatP.set_random n bits).reverse.length := by
    rw [List.length_reverse, hlenp]; omega
  rw [List.getD_eq_getElem _ 0 hlt]
  rw [List.getElem_reverse]
  rw [List.getD_eq_getElem _ 0 (by rw [hlenp]; omega : k < (SatP.set_random n bits).length)]
  congr 1
  rw [hlenp]
  omega

theorem SatM.set_random_mirrorInv (n : Nat) (bits : Nat → Bool) :
    MirrorInv n (SatM.set_random n bits) := by
  refine ⟨SatM.set_random_length n bits, fun k hk => ?_⟩
  refine ⟨?_, SatM.set_random_getD_mirror n bits k hk⟩
  rw [SatM.set_random_getD_pos n bits k hk, SatP.set_random_getD n bits k hk]
  by_cases h : bits k <;> simp [h]


theorem related_set_random (n : Nat) (bits : Nat → Bool) :
    Related n (SatP.set_random n bits) (SatM.set_random n bits) :=
  ⟨SatP.set_random_plainInv n bits, SatM.set_random_mirrorInv n bits,
    fun k hk => SatM.set_random_getD_pos n bits k hk⟩

/-- Related configurations evaluate every in-range literal identically. -/
theorem related_evaluate {n : Nat} {e ev : List Int} (hrel : Related n e ev)
    (l : Int) (hl1 : 1 ≤ l.natAbs) (hln : l.natAbs ≤ n) :
    SatP.evaluate_variable e l = SatM.evaluate_variable ev l := by
  unfold SatP.evaluate_variable SatM.evaluate_variable
  rw [SatM.pyGet_eq hrel.2.1 l hl1 hln]
  have hk : l.natAbs - 1 < n := by omega
  have hpt := hrel.2.2 _ hk
  have heq : l.natAbs - 1 + 1 = l.natAbs := by omega
  rw [heq] at hpt
  rw [hpt]

/-- Flipping the same variable preserves relatedness. -/
theorem related_flip {n : Nat} {e ev : List Int} (hrel : Related n e ev)
    (v : Int) (hv1 : 1 ≤ v.natAbs) (hvn : v.natAbs ≤ n) :
    Related n (SatP.flip_variable e v) (SatM.flip_variable ev v) := by
  obtain ⟨hp, hm, hpt⟩ := hrel
  refine ⟨SatP.flip_plainInv v hp, SatM.flip_mirrorInv v hm hv1 hvn, fun k hk => ?_⟩
  rw [SatM.flip_getD (n := n) ev v hm.1 hv1 hvn (k+1)]
  by_cases h : k + 1 = v.natAbs
  · rw [if_pos (Or.inl h)]
    have h2 : v.natAbs - 1 = k := by omega
    rw [← h2] at hk ⊢
    rw [SatP.flip_getD_eq e v (by have := hp.1; omega)]
    rw [hpt _ hk]
  · rw [if_neg (by omega)]
    rw [SatP.flip_getD_ne e v k (by omega)]
    exact hpt _ hk

/-- `get_evaluation` returns the `n` stored entries for variables `1..n`. -/
theorem SatM.get_evaluation_spec {n : Nat} {ev : List Int}
    (hlen : ev.length = 2*n+1) :
    (SatM.get_evaluation n ev).length = n ∧
      ∀ k < n, (SatM.get_evaluation n ev).getD k 0 = ev.getD (k+1) 0 := by
  constructor
  · unfold SatM.get_evaluation
    rw [List.length_take, List.length_drop, hlen]
    omega
  · intro k hk
    unfold SatM.get_evaluation
    have h1 : k < ((ev.drop 1).take n).length := by
      rw [List.length_take, List.length_drop, hlen]; omega
    have h2 : k < (ev.drop 1).length := by
      rw [List.length_drop, hlen]; omega
    rw [List.getD_eq_getElem _ 0 h1, List.getElem_take, List.getElem_drop,
      List.getD_eq_getElem _ 0 (show k + 1 < ev.length by omega)]
    congr 1
    omega

end MirrorSetRandom

section HelperLemmas

/-- Extensionality for `Nat` lists via `getD`. -/
theorem list_ext_getD (l1 l2 : List Nat) (hlen : l1.length = l2.length)
    (h : ∀ j < l1.length, l1.getD j 0 = l2.getD j 0) : l1 = l2 := by
  apply List.ext_getElem hlen
  intro j hj1 hj2
  have := h j hj1
  rwa [List.getD_eq_getElem _ 0 hj1, List.getD_eq_getElem _ 0 hj2] at this

/-- Membership in the enumerated clause index determines the clause at
that formula position and that the clause mentions the variable. -/
theorem SatM.mem_find_clauses {formula : List Clause} {w : Int}
    {p : Clause × Nat} (h : p ∈ SatM.find_clauses_for_var formula w) :
    formula[p.2]? = some p.1 ∧
      p.1.any (fun lit => w == ((lit.natAbs : Int))) = true := by
  unfold SatM.find_clauses_for_var at h
  rcases List.mem_map.mp h with ⟨q, hq, hpq⟩
  rcases List.mem_filter.mp hq with ⟨hqe, hqf⟩
  obtain ⟨i, c⟩ := q
  have hget := List.mk_mem_enum_iff_getElem?.mp hqe
  subst hpq
  exact ⟨hget, hqf⟩

/-- Conversely, every formula position whose clause mentions the variable
appears in the index. -/
theorem SatM.mem_find_clauses_of (formula : List Clause) (w : Int) (j : Nat)
    (hj : j < formula.length)
    (hq : (formula[j]).any (fun lit => w == ((lit.natAbs : Int))) = true) :
    (formula[j], j) ∈ SatM.find_clauses_for_var formula w := by
  unfold SatM.find_clauses_for_var
  apply List.mem_map.mpr
  refine ⟨(j, formula[j]), List.mem_filter.mpr ⟨?_, hq⟩, rfl⟩
  exact List.mk_mem_enum_iff_getElem?.mpr (List.getElem?_eq_getElem hj)

/-- The clause indices produced by the enumerated lookup are distinct. -/
theorem SatM.find_clauses_idx_nodup (formula : List Clause) (w : Int) :
    ((SatM.find_clauses_for_var formula w).map Prod.snd).Nodup := by
  unfold SatM.find_clauses_for_var
  rw [List.map_map]
  have hcomp : (Prod.snd ∘ (fun p : Nat × Clause => (p.2, p.1))) =
      (Prod.fst : Nat × Clause → Nat) := rfl
  rw [hcomp]
  exact List.Nodup.sublist
    (List.Sublist.map Prod.fst (List.filter_sublist _))
    (List.nodup_enum_map_fst formula)

/-- Every index in the enumerated lookup is a valid formula position. -/
theorem SatM.find_clauses_idx_lt {formula : List Clause} {w : Int}
    {p : Clause × Nat} (h : p ∈ SatM.find_clauses_for_var formula w) :
    p.2 < formula.length := by
  have := (SatM.mem_find_clauses h).1
  exact (List.getElem?_eq_some.mp this).1

theorem foldl_set_length (g : Clause → Nat) (ps : List (Clause × Nat))
    (counts : List Nat) :
    (ps.foldl (fun cs p => cs.set p.2 (g p.1)) counts).length = counts.length := by
  induction ps generalizing counts with
  | nil => rfl
  | cons p rest ih => rw [List.foldl_cons, ih, List.length_set]

theorem foldl_set_getD_not_mem (g : Clause → Nat) (ps : List (Clause × Nat))
    (counts : List Nat) (j : Nat) (hj : j ∉ ps.map Prod.snd) :
    (ps.foldl (fun cs p => cs.set p.2 (g p.1)) counts).getD j 0 =
      counts.getD j 0 := by
  induction ps generalizing counts with
  | nil => rfl
  | cons p rest ih =>
    rw [List.foldl_cons]
    have hjr : j ∉ rest.map Prod.snd := by
      intro hmem; exact hj (by simp [hmem])
    have hne : p.2 ≠ j := by
      intro hmem; exact hj (by simp [hmem])
    rw [ih _ hjr, getD_set_ne _ _ _ _ _ hne]

theorem foldl_set_getD_mem (g : Clause → Nat) (ps : List (Clause × Nat))
    (counts : List Nat) (c : Clause) (j : Nat)
    (hnd : (ps.map Prod.snd).Nodup) (hmem : (c, j) ∈ ps)
    (hj : j < counts.length) :
    (ps.foldl (fun cs p => cs.set p.2 (g p.1)) counts).getD j 0 = g c := by
  induction ps generalizing counts with
  | nil => cases hmem
  | cons p rest ih =>
    rw [List.foldl_cons]
    rcases List.mem_cons.mp hmem with heq | hrest
    · have hjr : j ∉ rest.map Prod.snd := by
        rw [← heq] at hnd
        exact (List.nodup_cons.mp (by simpa using hnd)).1
      rw [foldl_set_getD_not_mem g rest _ j hjr, ← heq]
      exact getD_set_eq _ _ _ _ hj
    · have hnd' : (rest.map Prod.snd).Nodup := (List.nodup_cons.mp (by simpa using hnd)).2
      exact ih _ hnd' hrest (by rw [List.length_set]; exact hj)

theorem SatM.Gsat.calculate_counts_length (formula : List Clause) (ev : List Int) :
    (SatM.Gsat.calculate_counts formula ev).length = formula.length := by
  simp [SatM.Gsat.calculate_counts]

theorem SatM.Gsat.calculate_counts_getD (formula : List Clause) (ev : List Int)
    (j : Nat) (hj : j < formula.length) :
    (SatM.Gsat.calculate_counts formula ev).getD j 0 =
      (formula[j]).countP (SatM.evaluate_variable ev) := by
  unfold SatM.Gsat.calculate_counts
  have hj' : j < (formula.map (fun c => c.countP (SatM.evaluate_variable ev))).length := by
    rw [List.length_map]; exact hj
  rw [List.getD_eq_getElem _ 0 hj', List.getElem_map]

end HelperLemmas

section TrackerStep

theorem SatM.Gsat.flip_fst (formula : List Clause) (ev : List Int)
    (counts : List Nat) (v : Int) :
    (SatM.Gsat.flip_variable formula ev counts v).1 = SatM.flip_variable ev v := rfl

theorem SatM.Gsat.flip_counts_length (formula : List Clause) (ev : List Int)
    (counts : List Nat) (v : Int) :
    (SatM.Gsat.flip_variable formula ev counts v).2.length = counts.length := by
  unfold SatM.Gsat.flip_variable
  exact foldl_set_length _ _ _

/-- Entry of the incrementally updated counts at a position whose clause
mentions the flipped variable: the recomputed count. -/
theorem SatM.Gsat.flip_counts_getD_mem (formula : List Clause) (ev : List Int)
    (counts : List Nat) (v : Int) (j : Nat) (hj : j < counts.length)
    (hjf : j < formula.length)
    (hq : (formula[j]).any (fun lit => ((v.natAbs : Int)) == ((lit.natAbs : Int))) = true) :
    (SatM.Gsat.flip_variable formula ev counts v).2.getD j 0 =
      (formula[j]).countP (SatM.evaluate_variable (SatM.flip_variable ev v)) := by
  unfold SatM.Gsat.flip_variable SatM.helper
  exact foldl_set_getD_mem _ _ counts (formula[j]) j
    (SatM.find_clauses_idx_nodup formula _)
    (SatM.mem_find_clauses_of formula _ j hjf hq) hj

/-- A position not in the flipped variable's clause index is untouched. -/
theorem SatM.Gsat.flip_counts_getD_not_mem (formula : List Clause) (ev : List Int)
    (counts : List Nat) (v : Int) (j : Nat)
    (hq : ∀ hjf : j < formula.length,
      ¬ ((formula[j]).any (fun lit => ((v.natAbs : Int)) == ((lit.natAbs : Int))) = true)) :
    (SatM.Gsat.flip_variable formula ev counts v).2.getD j 0 = counts.getD j 0 := by
  unfold SatM.Gsat.flip_variable SatM.helper
  apply foldl_set_getD_not_mem
  intro hmem
  rcases List.mem_map.mp hmem with ⟨p, hp, hpj⟩
  have h2 := SatM.mem_find_clauses hp
  have hjf : j < formula.length := by
    have := SatM.find_clauses_idx_lt hp
    rwa [hpj] at this
  have hc : p.1 = formula[j] := by
    have := h2.1
    rw [hpj] at this
    exact (Option.some_injective _ (by rw [← this, List.getElem?_eq_getElem hjf])).symm
  exact hq hjf (by rw [← hc]; exact h2.2)

/-- Literals of a clause with no occurrence of `|v|` have a different
variable. -/
theorem not_has_var_forall {c : Clause} {v : Int}
    (hq : ¬ (c.any (fun lit => ((v.natAbs : Int)) == ((lit.natAbs : Int))) = true)) :
    ∀ lit ∈ c, v.natAbs ≠ lit.natAbs := by
  intro lit hlit hEq
  apply hq
  rw [List.any_eq_true]
  exact ⟨lit, hlit, by rw [beq_iff_eq]; exact_mod_cast hEq⟩

/-- Core step lemma of the incremental design: flipping from a state
whose counts are a full recomputation yields exactly the full
recomputation from the flipped configuration. -/
theorem SatM.Gsat.flip_counts_correct {n : Nat} (formula : List Clause)
    (ev : List Int) (v : Int) (hinv : MirrorInv n ev)
    (hvars : ∀ c ∈ formula, ∀ l ∈ c, 1 ≤ l.natAbs ∧ l.natAbs ≤ n)
    (hv1 : 1 ≤ v.natAbs) (hvn : v.natAbs ≤ n) :
    (SatM.Gsat.flip_variable formula ev
        (SatM.Gsat.calculate_counts formula ev) v).2
      = SatM.Gsat.calculate_counts formula (SatM.flip_variable ev v) := by
  apply list_ext_getD
  · rw [SatM.Gsat.flip_counts_length, SatM.Gsat.calculate_counts_length,
      SatM.Gsat.calculate_counts_length]
  · intro j hj
    rw [SatM.Gsat.flip_counts_length, SatM.Gsat.calculate_counts_length] at hj
    by_cases hq : (formula[j]).any
        (fun lit => ((v.natAbs : Int)) == ((lit.natAbs : Int))) = true
    · rw [SatM.Gsat.flip_counts_getD_mem formula ev _ v j
        (by rw [SatM.Gsat.calculate_counts_length]; exact hj) hj hq,
        SatM.Gsat.calculate_counts_getD _ _ j hj]
    · rw [SatM.Gsat.flip_counts_getD_not_mem formula ev _ v j (fun _ => hq),
        SatM.Gsat.calculate_counts_getD _ _ j hj,
        SatM.Gsat.calculate_counts_getD _ _ j hj]
      apply countP_congr_mem
      intro l hl
      have hb := hvars (formula[j]) (List.getElem_mem hj) l hl
      exact (SatM.evaluate_flip_ne v l hinv hb.1 hb.2 hv1 hvn
        ((not_has_var_forall hq) l hl)).symm


/-- Along any flip sequence from an invariant-satisfying state, the
incremental counts stay equal to the full recomputation and the
configuration keeps the mirror invariant. -/
theorem SatM.Gsat.apply_flips_correct {n : Nat} (formula : List Clause)
    (vs : List Int)
    (hvars : ∀ c ∈ formula, ∀ l ∈ c, 1 ≤ l.natAbs ∧ l.natAbs ≤ n)
    (hvs : ∀ v ∈ vs, 1 ≤ v.natAbs ∧ v.natAbs ≤ n) :
    ∀ ev : List Int, MirrorInv n ev →
      SatM.Gsat.apply_flips formula (ev, SatM.Gsat.calculate_counts formula ev) vs
        = (vs.foldl SatM.flip_variable ev,
           SatM.Gsat.calculate_counts formula (vs.foldl SatM.flip_variable ev))
        ∧ MirrorInv n (vs.foldl SatM.flip_variable ev) := by
  induction vs with
  | nil => intro ev hinv; exact ⟨rfl, hinv⟩
  | cons v rest ih =>
    intro ev hinv
    have hv := hvs v (List.mem_cons_self v rest)
    have hstep := SatM.Gsat.flip_counts_correct (n := n) formula ev v hinv hvars hv.1 hv.2
    have hinv' := SatM.flip_mirrorInv v hinv hv.1 hv.2
    have ihr := ih (fun w hw => hvs w (List.mem_cons_of_mem v hw))
      (SatM.flip_variable ev v) hinv'
    constructor
    · unfold SatM.Gsat.apply_flips
      rw [List.foldl_cons]
      have hpair : SatM.Gsat.flip_variable formula ev
          (SatM.Gsat.calculate_counts formula ev) v
          = (SatM.flip_variable ev v,
             SatM.Gsat.calculate_counts formula (SatM.flip_variable ev v)) := by
        rw [Prod.ext_iff]
        exact ⟨SatM.Gsat.flip_fst _ _ _ _, hstep⟩
      rw [hpair]
      have := ihr.1
      unfold SatM.Gsat.apply_flips at this
      rw [this, List.foldl_cons]
    · rw [List.foldl_cons]
      exact ihr.2

end TrackerStep

/-- Claim C10: after `set_random` on a configuration with `n ≥ 1`
variables, the stored list has length `2n+1`, each entry `k` in `1..n` is
`±k` and equals the entry at Python index `-k`; `flip_variable` preserves
this invariant; under it, `evaluate_variable l` is true iff `l` equals
the stored value of its variable, and `get_evaluation` returns exactly
`n` signed integers, the `i`-th being `±(i+1)`. -/
theorem c10_mirrored_invariant (n : Nat) (hn : 1 ≤ n) :
    (∀ bits : Nat → Bool, (SatM.set_random n bits).length = 2*n+1
        ∧ MirrorInv n (SatM.set_random n bits))
    ∧ (∀ ev : List Int, ∀ v : Int, MirrorInv n ev → 1 ≤ v.natAbs → v.natAbs ≤ n →
        MirrorInv n (SatM.flip_variable ev v))
    ∧ (∀ ev : List Int, ∀ l : Int, MirrorInv n ev → 1 ≤ l.natAbs → l.natAbs ≤ n →
        (SatM.evaluate_variable ev l = true ↔ l = ev.getD l.natAbs 0))
    ∧ (∀ ev : List Int, MirrorInv n ev → (SatM.get_evaluation n ev).length = n
        ∧ ∀ k < n, (SatM.get_evaluation n ev).getD k 0 = ((k : Int)+1)
            ∨ (SatM.get_evaluation n ev).getD k 0 = -((k : Int)+1)) := by
  refine ⟨fun bits => ⟨SatM.set_random_length n bits, SatM.set_random_mirrorInv n bits⟩,
    fun ev v hinv hv1 hvn => SatM.flip_mirrorInv v hinv hv1 hvn,
    fun ev l hinv hl1 hln => ?_, fun ev hinv => ⟨(SatM.get_evaluation_spec hinv.1).1, ?_⟩⟩
  · unfold SatM.evaluate_variable
    rw [SatM.pyGet_eq hinv l hl1 hln]
    exact beq_iff_eq
  · intro k hk
    rw [(SatM.get_evaluation_spec hinv.1).2 k hk]
    exact (hinv.2 k hk).1

/-- Witness for C10 at `n = 2`. -/
theorem c10_mirrored_invariant_witness : (1 ≤ 2)
    ∧ ((∀ bits : Nat → Bool, (SatM.set_random 2 bits).length = 2*2+1
        ∧ MirrorInv 2 (SatM.set_random 2 bits))
    ∧ (∀ ev : List Int, ∀ v : Int, MirrorInv 2 ev → 1 ≤ v.natAbs → v.natAbs ≤ 2 →
        MirrorInv 2 (SatM.flip_variable ev v))
    ∧ (∀ ev : List Int, ∀ l : Int, MirrorInv 2 ev → 1 ≤ l.natAbs → l.natAbs ≤ 2 →
        (SatM.evaluate_variable ev l = true ↔ l = ev.getD l.natAbs 0))
    ∧ (∀ ev : List Int, MirrorInv 2 ev → (SatM.get_evaluation 2 ev).length = 2
        ∧ ∀ k < 2, (SatM.get_evaluation 2 ev).getD k 0 = ((k : Int)+1)
            ∨ (SatM.get_evaluation 2 ev).getD k 0 = -((k : Int)+1))) :=
  ⟨by decide, c10_mirrored_invariant 2 (by decide)⟩

/-- Claim C1: in a trial (a fresh random configuration, one full
recomputation, then any sequence of `Gsat.flip_variable` calls, each of
which touches only the clauses of `helper[v]`), the stored per-clause
counts always equal a full recomputation from the working configuration,
and an entry is `0` exactly when its clause is unsatisfied. -/
theorem c1_tracker_invariant (formula : List Clause) (n : Nat)
    (bits : Nat → Bool) (vs : List Int)
    (hvars : ∀ c ∈ formula, ∀ l ∈ c, 1 ≤ l.natAbs ∧ l.natAbs ≤ n)
    (hvs : ∀ v ∈ vs, 1 ≤ v.natAbs ∧ v.natAbs ≤ n) :
    (SatM.Gsat.trial_state formula n bits vs).2
      = SatM.Gsat.calculate_counts formula (SatM.Gsat.trial_state formula n bits vs).1
    ∧ ∀ j < formula.length,
        ((SatM.Gsat.trial_state formula n bits vs).2.getD j 0 = 0 ↔
          ¬ ((formula.getD j []).any
              (SatM.evaluate_variable (SatM.Gsat.trial_state formula n bits vs).1) = true)) := by
  have hmain := SatM.Gsat.apply_flips_correct (n := n) formula vs hvars hvs
    (SatM.set_random n bits) (SatM.set_random_mirrorInv n bits)
  have hst : SatM.Gsat.trial_state formula n bits vs
      = (vs.foldl SatM.flip_variable (SatM.set_random n bits),
         SatM.Gsat.calculate_counts formula
           (vs.foldl SatM.flip_variable (SatM.set_random n bits))) := by
    unfold SatM.Gsat.trial_state
    exact hmain.1
  rw [hst]
  refine ⟨rfl, fun j hj => ?_⟩
  rw [SatM.Gsat.calculate_counts_getD _ _ j hj, List.getD_eq_getElem _ [] hj]
  rw [any_iff_countP_ne]
  constructor
  · intro h0 hne
    exact hne h0
  · intro hne
    by_contra h0
    exact hne (fun h => h0 h)

/-- Witness for C1 on the formula `[[1,2],[-1,-2]]` with flips `1, -2`. -/
theorem c1_tracker_invariant_witness :
    ((∀ c ∈ [[1,2],[-1,-2]], ∀ l ∈ c, 1 ≤ Int.natAbs l ∧ Int.natAbs l ≤ 2)
      ∧ (∀ v ∈ [(1 : Int), -2], 1 ≤ Int.natAbs v ∧ Int.natAbs v ≤ 2))
    ∧ ((SatM.Gsat.trial_state [[1,2],[-1,-2]] 2 (fun _ => true) [1, -2]).2
      = SatM.Gsat.calculate_counts [[1,2],[-1,-2]]
          (SatM.Gsat.trial_state [[1,2],[-1,-2]] 2 (fun _ => true) [1, -2]).1
    ∧ ∀ j < ([[1,2],[-1,-2]] : List Clause).length,
        ((SatM.Gsat.trial_state [[1,2],[-1,-2]] 2 (fun _ => true) [1, -2]).2.getD j 0 = 0 ↔
          ¬ (((([[1,2],[-1,-2]] : List Clause)).getD j []).any
              (SatM.evaluate_variable
                (SatM.Gsat.trial_state [[1,2],[-1,-2]] 2 (fun _ => true) [1, -2]).1) = true))) :=
  ⟨⟨by decide, by decide⟩,
    c1_tracker_invariant [[1,2],[-1,-2]] 2 (fun _ => true) [1, -2] (by decide) (by decide)⟩

/-- Claim C9: from any configuration of the right shape whose tracker
equals a full recomputation, applying `Gsat.flip_variable v` twice
returns both the configuration and the tracker to their prior state. -/
theorem c9_flip_involution (formula : List Clause) (n : Nat) (ev : List Int)
    (counts : List Nat) (v : Int) (hlen : ev.length = 2*n+1)
    (hcounts : counts = SatM.Gsat.calculate_counts formula ev)
    (hv1 : 1 ≤ v.natAbs) (hvn : v.natAbs ≤ n) :
    SatM.Gsat.flip_variable formula
        (SatM.Gsat.flip_variable formula ev counts v).1
        (SatM.Gsat.flip_variable formula ev counts v).2 v
      = (ev, counts) := by
  have hff : SatM.flip_variable (SatM.flip_variable ev v) v = ev :=
    SatM.flip_flip (n := n) ev v hlen hv1 hvn
  rw [SatM.Gsat.flip_fst]
  rw [Prod.ext_iff]
  refine ⟨by rw [SatM.Gsat.flip_fst]; exact hff, ?_⟩
  apply list_ext_getD
  · rw [SatM.Gsat.flip_counts_length, SatM.Gsat.flip_counts_length]
  · intro j hj
    rw [SatM.Gsat.flip_counts_length, SatM.Gsat.flip_counts_length] at hj
    have hjf : j < formula.length := by
      rw [hcounts, SatM.Gsat.calculate_counts_length] at hj; exact hj
    by_cases hq : (formula[j]).any
        (fun lit => ((v.natAbs : Int)) == ((lit.natAbs : Int))) = true
    · rw [SatM.Gsat.flip_counts_getD_mem formula _ _ v j
        (by rw [SatM.Gsat.flip_counts_length]; exact hj) hjf hq]
      rw [hff, hcounts, SatM.Gsat.calculate_counts_getD _ _ j hjf]
    · rw [SatM.Gsat.flip_counts_getD_not_mem formula _ _ v j (fun _ => hq),
        SatM.Gsat.flip_counts_getD_not_mem formula _ _ v j (fun _ => hq)]

/-- Witness for C9 on `[[1,2],[-1,-2]]` with `ev = [0,1,2,2,1]`, `v = 2`. -/
theorem c9_flip_involution_witness :
    (([0,1,2,2,1] : List Int).length = 2*2+1
      ∧ ([2,0] : List Nat) = SatM.Gsat.calculate_counts [[1,2],[-1,-2]] [0,1,2,2,1]
      ∧ 1 ≤ Int.natAbs 2 ∧ Int.natAbs 2 ≤ 2)
    ∧ SatM.Gsat.flip_variable [[1,2],[-1,-2]]
        (SatM.Gsat.flip_variable [[1,2],[-1,-2]] [0,1,2,2,1] [2,0] 2).1
        (SatM.Gsat.flip_variable [[1,2],[-1,-2]] [0,1,2,2,1] [2,0] 2).2 2
      = ([0,1,2,2,1], [2,0]) :=
  ⟨⟨by decide, by decide, by decide, by decide⟩,
    c9_flip_involution [[1,2],[-1,-2]] 2 [0,1,2,2,1] [2,0] 2
      (by decide) (by decide) (by decide) (by decide)⟩

section BestFlipsNonempty

/-- A fold whose step decreases the accumulator by at most one is bounded
below by the initial value minus the list length. -/
theorem foldl_ge_sub_length (g : Int → Clause × Nat → Int)
    (hg : ∀ a p, a - 1 ≤ g a p) (l : List (Clause × Nat)) :
    ∀ a : Int, a - l.length ≤ l.foldl g a := by
  induction l with
  | nil => intro a; simp
  | cons p rest ih =>
    intro a
    rw [List.foldl_cons]
    have h1 := ih (g a p)
    have h2 := hg a p
    have : (List.length (p :: rest) : Int) = rest.length + 1 := by
      rw [List.length_cons]; push_cast; ring
    omega

/-- `sat_change_if_fliped` never reports a change below
`-len(formula)`. -/
theorem SatM.Gsat.sat_change_lower (formula : List Clause) (ev : List Int)
    (counts : List Nat) (v : Int) :
    -(formula.length : Int) ≤ SatM.Gsat.sat_change_if_fliped formula ev counts v := by
  unfold SatM.Gsat.sat_change_if_fliped
  have hlen : (SatM.helper formula v).length ≤ formula.length := by
    unfold SatM.helper SatM.find_clauses_for_var
    rw [List.length_map]
    calc (formula.enum.filter _).length ≤ formula.enum.length :=
          List.length_filter_le _ _
      _ = formula.length := List.enum_length
  have hstep : ∀ (a : Int) (p : Clause × Nat), a - 1 ≤
      (if counts.getD p.2 0 = 0 then a + 1
       else if counts.getD p.2 0 = 1 then
        if p.1.any (fun lit => ((lit.natAbs : Int) == v) &&
            SatM.evaluate_variable ev lit) then a - 1 else a
       else a) := by
    intro a p
    split
    · omega
    · split
      · split <;> omega
      · omega
  have := foldl_ge_sub_length _ hstep (SatM.helper formula v) 0
  omega

theorem SatM.Gsat.best_flips_step_ne_nil (formula : List Clause) (ev : List Int)
    (counts : List Nat) (st : Int × List Int) (i : Nat) (h : st.2 ≠ []) :
    (SatM.Gsat.best_flips_step formula ev counts st i).2 ≠ [] := by
  unfold SatM.Gsat.best_flips_step
  dsimp only
  split
  · simp
  · split
    · simp
    · exact h

theorem SatM.Gsat.best_flips_fold_ne_nil (formula : List Clause) (ev : List Int)
    (counts : List Nat) (l : List Nat) :
    ∀ st : Int × List Int, st.2 ≠ [] →
      (l.foldl (SatM.Gsat.best_flips_step formula ev counts) st).2 ≠ [] := by
  induction l with
  | nil => intro st h; exact h
  | cons i rest ih =>
    intro st h
    rw [List.foldl_cons]
    exact ih _ (SatM.Gsat.best_flips_step_ne_nil formula ev counts st i h)

theorem SatP.unsat_length_le (form : List Clause) (e : List Int) :
    (SatP.get_unsatisfied_clausules form e).length ≤ form.length :=
  List.length_filter_le _ _

theorem SatP.helper_length_le (formula : List Clause) (v : Int) :
    (SatP.helper formula v).length ≤ formula.length :=
  List.length_filter_le _ _

theorem SatP.best_flips_step_ne_nil_plain (formula : List Clause)
    (st : Int × List Int × List Int) (i : Nat) (h : st.2.1 ≠ []) :
    (SatP.best_flips_step formula st i).2.1 ≠ [] := by
  unfold SatP.best_flips_step
  dsimp only
  split
  · simp
  · split
    · simp
    · exact h

theorem SatP.best_flips_fold_ne_nil_plain (formula : List Clause) (l : List Nat) :
    ∀ st : Int × List Int × List Int, st.2.1 ≠ [] →
      (l.foldl (SatP.best_flips_step formula) st).2.1 ≠ [] := by
  induction l with
  | nil => intro st h; exact h
  | cons i rest ih =>
    intro st h
    rw [List.foldl_cons]
    exact ih _ (SatP.best_flips_step_ne_nil_plain formula st i h)

/-- Claim C6: for `nv ≥ 1`, both greedy-step candidate computations
return at least one variable, whatever the configuration and counts, so
their non-emptiness assertions never fail. -/
theorem c6_best_flips_nonempty (formula : List Clause) (nv : Nat)
    (e ev : List Int) (counts : List Nat) (hnv : 1 ≤ nv) :
    SatP.get_best_flips formula nv e ≠ []
      ∧ SatM.Gsat.get_best_flips formula nv ev counts ≠ [] := by
  obtain ⟨m, rfl⟩ : ∃ m, nv = m + 1 := ⟨nv - 1, by omega⟩
  have hrange : List.range' 1 (m+1) = 1 :: List.range' 2 m := List.range'_succ 1 m 1
  constructor
  · unfold SatP.get_best_flips
    rw [hrange, List.foldl_cons]
    apply SatP.best_flips_fold_ne_nil_plain
    unfold SatP.best_flips_step
    have hch : ((SatP.get_unsatisfied_clausules
          (SatP.helper formula ((1 : Nat) : Int))
          (SatP.flip_variable e ((1 : Nat) : Int))).length : Int)
        - ((SatP.get_unsatisfied_clausules (SatP.helper formula ((1 : Nat) : Int)) e).length : Int)
        ≤ (formula.length : Int) := by
      have h1 := SatP.unsat_length_le (SatP.helper formula ((1 : Nat) : Int))
        (SatP.flip_variable e ((1 : Nat) : Int))
      have h2 := SatP.helper_length_le formula ((1 : Nat) : Int)
      omega
    dsimp only
    split
    · simp
    · split
      · simp
      · omega
  · unfold SatM.Gsat.get_best_flips
    rw [hrange, List.foldl_cons]
    apply SatM.Gsat.best_flips_fold_ne_nil
    unfold SatM.Gsat.best_flips_step
    have hch := SatM.Gsat.sat_change_lower formula ev counts ((1 : Nat) : Int)
    dsimp only
    split
    · simp
    · split
      · simp
      · omega

/-- Witness for C6 on `[[1,2],[-1,-2]]` with `nv = 2`. -/
theorem c6_best_flips_nonempty_witness : (1 ≤ 2)
    ∧ (SatP.get_best_flips [[1,2],[-1,-2]] 2 [1,2] ≠ []
      ∧ SatM.Gsat.get_best_flips [[1,2],[-1,-2]] 2 [0,1,2,2,1] [2,0] ≠ []) :=
  ⟨by decide, c6_best_flips_nonempty [[1,2],[-1,-2]] 2 [1,2] [0,1,2,2,1] [2,0] (by decide)⟩

end BestFlipsNonempty

section SatChangeCrux

/-- Integer-cast equality test on `Nat` agrees with the `Nat` test. -/
theorem int_beq_natCast (a b : Nat) : (((a : Int)) == ((b : Int))) = (a == b) := by
  rw [Bool.eq_iff_iff, beq_iff_eq, beq_iff_eq]
  exact Int.natCast_inj

/-- `==` is symmetric for lawful instances. -/
theorem beq_comm_bool (a b : Int) : (a == b) = (b == a) := by
  rw [Bool.eq_iff_iff, beq_iff_eq, beq_iff_eq]
  exact eq_comm

theorem countP_add_countP_not {α : Type} (p : α → Bool) (l : List α) :
    l.countP p + l.countP (fun a => !(p a)) = l.length := by
  induction l with
  | nil => rfl
  | cons x xs ih =>
    by_cases h : p x <;> simp [List.countP_cons, h] <;> omega

theorem SatM.satisfied_count_eq_countP (formula : List Clause) (ev : List Int) :
    SatM.satisfied_count formula ev
      = formula.countP (fun c => c.any (SatM.evaluate_variable ev)) := by
  unfold SatM.satisfied_count SatM.get_unsatisfied_clauses
  rw [← List.countP_eq_length_filter]
  have hsum := countP_add_countP_not
    (fun c : Clause => c.any (SatM.evaluate_variable ev)) formula
  omega

/-- The source loop of `sat_change_if_fliped` is the sum of the
per-clause contributions. -/
theorem SatM.Gsat.sat_change_eq_sum (formula : List Clause) (ev : List Int)
    (counts : List Nat) (v : Int) :
    SatM.Gsat.sat_change_if_fliped formula ev counts v
      = ((SatM.helper formula v).map (SatM.Gsat.satContrib ev counts v)).sum := by
  unfold SatM.Gsat.sat_change_if_fliped
  have hstep : ∀ (a : Int) (p : Clause × Nat),
      (if counts.getD p.2 0 = 0 then a + 1
       else if counts.getD p.2 0 = 1 then
        if p.1.any (fun lit => ((lit.natAbs : Int) == v) &&
            SatM.evaluate_variable ev lit) then a - 1 else a
       else a) = a + SatM.Gsat.satContrib ev counts v p := by
    intro a p
    unfold SatM.Gsat.satContrib
    split_ifs <;> ring
  calc (SatM.helper formula v).foldl _ 0
      = (SatM.helper formula v).foldl
          (fun a p => a + SatM.Gsat.satContrib ev counts v p) 0 := by
        congr 1
        funext a p
        exact hstep a p
    _ = 0 + ((SatM.helper formula v).map (SatM.Gsat.satContrib ev counts v)).sum :=
        foldl_add_eq_sum _ _ 0
    _ = _ := by ring

/-- Per-clause case analysis: for a clause containing variable `v` at
most once, the change of its satisfaction indicator under flipping `v`
is exactly the contribution computed from the true-literal count. -/
theorem satInd_flip_eq {n : Nat} {ev : List Int} (v : Nat) (c : Clause)
    (hinv : MirrorInv n ev) (hv1 : 1 ≤ v) (hvn : v ≤ n)
    (hc : ∀ l ∈ c, 1 ≤ l.natAbs ∧ l.natAbs ≤ n)
    (hdup : c.countP (fun l => l.natAbs == v) ≤ 1)
    (hhas : c.any (fun l => l.natAbs == v) = true) :
    (if c.any (SatM.evaluate_variable (SatM.flip_variable ev ((v : Int)))) = true
        then (1 : Int) else 0)
      - (if c.any (SatM.evaluate_variable ev) = true then (1 : Int) else 0)
    = (if c.countP (SatM.evaluate_variable ev) = 0 then 1
       else if c.countP (SatM.evaluate_variable ev) = 1 then
         (if c.any (fun lit => ((lit.natAbs : Int) == ((v : Int))) &&
             SatM.evaluate_variable ev lit) = true then -1 else 0)
       else 0) := by
  have hvabs : ((v : Int)).natAbs = v := Int.natAbs_ofNat v
  have hpa : ∀ l ∈ c, SatM.evaluate_variable (SatM.flip_variable ev ((v : Int))) l
      = if (l.natAbs == v) then !SatM.evaluate_variable ev l
        else SatM.evaluate_variable ev l := by
    intro l hl
    have hb := hc l hl
    by_cases h : l.natAbs = v
    · rw [if_pos (by rw [beq_iff_eq]; exact h)]
      exact SatM.evaluate_flip_same _ l hinv hb.1 hb.2 (by rw [hvabs, h])
    · rw [if_neg (by rw [beq_iff_eq]; exact h)]
      exact SatM.evaluate_flip_ne _ l hinv hb.1 hb.2 (by rw [hvabs]; omega)
        (by rw [hvabs]; omega) (by rw [hvabs]; omega)
  have hbal := countP_flip_balance (SatM.evaluate_variable ev)
    (SatM.evaluate_variable (SatM.flip_variable ev ((v : Int))))
    (fun l => l.natAbs == v) c hpa
  have hsplit := countP_split (fun l => l.natAbs == v)
    (SatM.evaluate_variable ev) c
  have hone : c.countP (fun l => l.natAbs == v) = 1 := by
    have h1 := (any_iff_countP_ne (fun l => l.natAbs == v) c).mp hhas
    omega
  have hmono : c.countP (fun l => (l.natAbs == v) && SatM.evaluate_variable ev l)
      ≤ c.countP (SatM.evaluate_variable ev) := by
    apply List.countP_mono_left
    intro l _ h
    exact (Bool.and_eq_true_iff.mp h).2
  have P1 : (c.any (SatM.evaluate_variable (SatM.flip_variable ev ((v : Int)))) = true)
      ↔ c.countP (SatM.evaluate_variable (SatM.flip_variable ev ((v : Int)))) ≠ 0 :=
    any_iff_countP_ne _ _
  have P2 : (c.any (SatM.evaluate_variable ev) = true)
      ↔ c.countP (SatM.evaluate_variable ev) ≠ 0 := any_iff_countP_ne _ _
  have P3 : (c.any (fun lit => ((lit.natAbs : Int) == ((v : Int))) &&
      SatM.evaluate_variable ev lit) = true)
      ↔ c.countP (fun l => (l.natAbs == v) && SatM.evaluate_variable ev l) ≠ 0 := by
    rw [any_congr_mem _ (fun l => (l.natAbs == v) && SatM.evaluate_variable ev l) c
      (fun l _ => by rw [int_beq_natCast])]
    exact any_iff_countP_ne _ _
  rw [if_congr P1 rfl rfl, if_congr P2 rfl rfl, if_congr P3 rfl rfl]
  dsimp only at hbal hsplit
  split_ifs <;> omega

end SatChangeCrux

section SatChangeCorrect

/-- Clauses without repeated variables contain each variable at most
once. -/
theorem nodup_vars_countP_le (c : Clause) (h : (c.map Int.natAbs).Nodup)
    (k : Nat) : c.countP (fun l => l.natAbs == k) ≤ 1 := by
  have h1 := List.nodup_iff_count_le_one.mp h k
  have h2 : (c.map Int.natAbs).count k = c.countP (fun l => l.natAbs == k) := by
    rw [List.count_eq_countP, List.countP_map]
    rfl
  omega

/-- Claim C2 (amended): for a formula in which no clause repeats a
variable, with the tracker equal to a full recomputation,
`sat_change_if_fliped v` is exactly the satisfied-clause count after
hypothetically flipping `v` minus the count before; the embedding is a
pure function of the state, matching the source, which performs no
writes. -/
theorem c2_sat_change_correct (formula : List Clause) (n : Nat) (ev : List Int)
    (counts : List Nat) (v : Nat)
    (hinv : MirrorInv n ev)
    (hcounts : counts = SatM.Gsat.calculate_counts formula ev)
    (hvars : ∀ c ∈ formula, ∀ l ∈ c, 1 ≤ l.natAbs ∧ l.natAbs ≤ n)
    (hdup : ∀ c ∈ formula, (c.map Int.natAbs).Nodup)
    (hv1 : 1 ≤ v) (hvn : v ≤ n) :
    SatM.Gsat.sat_change_if_fliped formula ev counts ((v : Int))
      = ((SatM.satisfied_count formula (SatM.flip_variable ev ((v : Int))) : Int)
        - (SatM.satisfied_count formula ev : Int)) := by
  subst hcounts
  have hhelper : SatM.helper formula ((v : Int))
      = SatM.find_clauses_for_var formula ((v : Int)) := by
    unfold SatM.helper
    rw [Int.natAbs_ofNat]
  rw [SatM.Gsat.sat_change_eq_sum, hhelper]
  unfold SatM.find_clauses_for_var
  rw [List.map_map, sum_map_filter_eq]
  rw [SatM.satisfied_count_eq_countP, SatM.satisfied_count_eq_countP,
    countP_eq_sum_ind, countP_eq_sum_ind, ← sum_map_sub]
  conv_rhs => rw [← List.enum_map_snd formula, List.map_map]
  apply congrArg List.sum
  apply List.map_congr_left
  intro x hx
  obtain ⟨i, c⟩ := x
  have hget := List.mk_mem_enum_iff_getElem?.mp hx
  obtain ⟨hi, hceq⟩ := List.getElem?_eq_some.mp hget
  have hcmem : c ∈ formula := hceq ▸ List.getElem_mem hi
  simp only [Function.comp_apply]
  by_cases hq : c.any (fun lit => ((v : Int)) == ((lit.natAbs : Int))) = true
  · rw [if_pos hq]
    have hcnt : (SatM.Gsat.calculate_counts formula ev).getD i 0
        = c.countP (SatM.evaluate_variable ev) := by
      rw [SatM.Gsat.calculate_counts_getD _ _ i hi, hceq]
    have hhasN : c.any (fun l => l.natAbs == v) = true := by
      rw [any_congr_mem (fun l => l.natAbs == v)
        (fun lit => ((v : Int)) == ((lit.natAbs : Int))) c
        (fun l _ => by dsimp only; rw [← int_beq_natCast, beq_comm_bool])]
      exact hq
    have hcrux := satInd_flip_eq v c hinv hv1 hvn (hvars c hcmem)
      (nodup_vars_countP_le c (hdup c hcmem) v) hhasN
    unfold SatM.Gsat.satContrib
    dsimp only
    rw [hcnt]
    exact hcrux.symm
  · rw [if_neg hq]
    have hsame : c.any (SatM.evaluate_variable (SatM.flip_variable ev ((v : Int))))
        = c.any (SatM.evaluate_variable ev) := by
      apply any_congr_mem
      intro l hl
      have hb := hvars c hcmem l hl
      apply SatM.evaluate_flip_ne _ l hinv hb.1 hb.2
        (by rw [Int.natAbs_ofNat]; omega) (by rw [Int.natAbs_ofNat]; omega)
      rw [Int.natAbs_ofNat]
      intro hEq
      apply hq
      rw [List.any_eq_true]
      refine ⟨l, hl, ?_⟩
      rw [beq_iff_eq]
      exact_mod_cast hEq
    rw [hsame]
    ring

end SatChangeCorrect

section BestFlipsEquiv

theorem sum_map_neg {α : Type} (g : α → Int) (l : List α) :
    (l.map (fun x => -(g x))).sum = -((l.map g).sum) := by
  induction l with
  | nil => rfl
  | cons x xs ih => simp [ih]; ring

theorem ind_not_eq (x : Bool) :
    (if (!x) = true then (1 : Int) else 0) = 1 - (if x = true then (1 : Int) else 0) := by
  cases x <;> simp

theorem enumFrom_filter_map_snd {α : Type} (q : α → Bool) :
    ∀ (l : List α) (k : Nat),
      ((l.enumFrom k).filter (fun p => q p.2)).map Prod.snd = l.filter q := by
  intro l
  induction l with
  | nil => intro k; rfl
  | cons x xs ih =>
    intro k
    rw [List.enumFrom_cons, List.filter_cons, List.filter_cons]
    by_cases h : q x
    · simp [h, ih]
    · simp [h, ih]

/-- The plain clause lookup is the clause component of the enumerated
lookup. -/
theorem find_clauses_P_eq_map_fst (formula : List Clause) (w : Int) :
    SatP.find_clauses_for_var formula w
      = (SatM.find_clauses_for_var formula w).map Prod.fst := by
  unfold SatP.find_clauses_for_var SatM.find_clauses_for_var
  rw [List.map_map]
  have hcomp : (Prod.fst ∘ (fun p : Nat × Clause => (p.2, p.1)))
      = (Prod.snd : Nat × Clause → Clause) := rfl
  rw [hcomp]
  exact (enumFrom_filter_map_snd (fun c => c.any fun lit => w == ((lit.natAbs : Int)))
    formula 0).symm

/-- Per-variable equivalence: the flip-measure-flip-back change in the
number of unsatisfied clauses among `helper[i]` is the negation of the
pure `sat_change_if_fliped` delta, on related configurations with a
correct tracker and duplicate-free clauses. -/
theorem old_change_eq_neg_sat_change (formula : List Clause) (n : Nat)
    (e ev : List Int) (hrel : Related n e ev)
    (hvars : ∀ c ∈ formula, ∀ l ∈ c, 1 ≤ l.natAbs ∧ l.natAbs ≤ n)
    (hdup : ∀ c ∈ formula, (c.map Int.natAbs).Nodup)
    (i : Nat) (hi1 : 1 ≤ i) (hin : i ≤ n) :
    ((SatP.get_unsatisfied_clausules (SatP.helper formula ((i : Int)))
        (SatP.flip_variable e ((i : Int)))).length : Int)
      - ((SatP.get_unsatisfied_clausules (SatP.helper formula ((i : Int))) e).length : Int)
    = - SatM.Gsat.sat_change_if_fliped formula ev
        (SatM.Gsat.calculate_counts formula ev) ((i : Int)) := by
  have habs : ((i : Int)).natAbs = i := Int.natAbs_ofNat i
  have hhelperP : SatP.helper formula ((i : Int))
      = (SatM.find_clauses_for_var formula ((i : Int))).map Prod.fst := by
    unfold SatP.helper
    rw [habs, find_clauses_P_eq_map_fst]
  have hhelperM : SatM.helper formula ((i : Int))
      = SatM.find_clauses_for_var formula ((i : Int)) := by
    unfold SatM.helper
    rw [habs]
  rw [SatM.Gsat.sat_change_eq_sum, hhelperM, hhelperP]
  unfold SatP.get_unsatisfied_clausules
  rw [← List.countP_eq_length_filter, ← List.countP_eq_length_filter,
    List.countP_map, List.countP_map, countP_eq_sum_ind, countP_eq_sum_ind,
    ← sum_map_sub, ← sum_map_neg]
  apply congrArg List.sum
  apply List.map_congr_left
  intro p hp
  obtain ⟨c, j⟩ := p
  have hmemf := SatM.mem_find_clauses hp
  obtain ⟨hj, hceq⟩ := List.getElem?_eq_some.mp hmemf.1
  have hcmem : c ∈ formula := by
    have := List.getElem_mem hj
    rwa [hceq] at this
  have hq : c.any (fun lit => ((i : Int)) == ((lit.natAbs : Int))) = true := hmemf.2
  simp only [Function.comp_apply]
  have hb : ∀ l ∈ c, 1 ≤ l.natAbs ∧ l.natAbs ≤ n := hvars c hcmem
  have hpb : c.any (SatP.evaluate_variable e) = c.any (SatM.evaluate_variable ev) :=
    any_congr_mem _ _ c (fun l hl => related_evaluate hrel l (hb l hl).1 (hb l hl).2)
  have hrel' := related_flip hrel ((i : Int)) (by rw [habs]; omega) (by rw [habs]; omega)
  have hpa : c.any (SatP.evaluate_variable (SatP.flip_variable e ((i : Int))))
      = c.any (SatM.evaluate_variable (SatM.flip_variable ev ((i : Int)))) :=
    any_congr_mem _ _ c (fun l hl => related_evaluate hrel' l (hb l hl).1 (hb l hl).2)
  rw [ind_not_eq, ind_not_eq, hpa, hpb]
  have hhasN : c.any (fun l => l.natAbs == i) = true := by
    rw [any_congr_mem (fun l => l.natAbs == i)
      (fun lit => ((i : Int)) == ((lit.natAbs : Int))) c
      (fun l _ => by dsimp only; rw [← int_beq_natCast, beq_comm_bool])]
    exact hq
  have hcrux := satInd_flip_eq i c hrel.2.1 hi1 hin hb
    (nodup_vars_countP_le c (hdup c hcmem) i) hhasN
  have hcnt : (SatM.Gsat.calculate_counts formula ev).getD j 0
      = c.countP (SatM.evaluate_variable ev) := by
    rw [SatM.Gsat.calculate_counts_getD _ _ j hj, hceq]
  unfold SatM.Gsat.satContrib
  dsimp only
  rw [hcnt, ← hcrux]
  ring

end BestFlipsEquiv

section BestFlipsFold

/-- One step of the two greedy scans: starting from mirrored accumulator
states `(b, fl, e0)` and `(-b, fl)`, when the measured change is the
negation of the pure delta, the steps stay mirrored and the probed
configuration is restored. -/
theorem best_flips_step_rel (formula : List Clause) (e0 ev : List Int)
    (counts : List Nat) (i : Nat) (b : Int) (fl : List Int)
    (hi : ((SatP.get_unsatisfied_clausules (SatP.helper formula ((i : Int)))
        (SatP.flip_variable e0 ((i : Int)))).length : Int)
      - ((SatP.get_unsatisfied_clausules (SatP.helper formula ((i : Int))) e0).length : Int)
      = - SatM.Gsat.sat_change_if_fliped formula ev counts ((i : Int))) :
    SatP.best_flips_step formula (b, fl, e0) i
      = (-(SatM.Gsat.best_flips_step formula ev counts (-b, fl) i).1,
         (SatM.Gsat.best_flips_step formula ev counts (-b, fl) i).2, e0) := by
  unfold SatP.best_flips_step SatM.Gsat.best_flips_step
  dsimp only
  rw [SatP.flip_flip_plain]
  by_cases h1 : ((SatP.get_unsatisfied_clausules (SatP.helper formula ((i : Int)))
      (SatP.flip_variable e0 ((i : Int)))).length : Int)
      - ((SatP.get_unsatisfied_clausules (SatP.helper formula ((i : Int))) e0).length : Int)
      = b
  · rw [if_pos h1,
      if_pos (show SatM.Gsat.sat_change_if_fliped formula ev counts ((i : Int)) = -b by omega)]
    simp
  · rw [if_neg h1,
      if_neg (show ¬ (SatM.Gsat.sat_change_if_fliped formula ev counts ((i : Int)) = -b) by omega)]
    by_cases h2 : ((SatP.get_unsatisfied_clausules (SatP.helper formula ((i : Int)))
        (SatP.flip_variable e0 ((i : Int)))).length : Int)
        - ((SatP.get_unsatisfied_clausules (SatP.helper formula ((i : Int))) e0).length : Int)
        < b
    · rw [if_pos h2,
        if_pos (show -b < SatM.Gsat.sat_change_if_fliped formula ev counts ((i : Int)) by omega)]
      refine congrArg (fun z => (z, [((i : Nat) : Int)], e0)) ?_
      omega
    · rw [if_neg h2,
        if_neg (show ¬ (-b < SatM.Gsat.sat_change_if_fliped formula ev counts ((i : Int))) by omega)]
      simp

/-- The two greedy scans produce the same candidate list from mirrored
accumulators, provided every probed variable's measured change is the
negation of the pure delta. -/
theorem best_flips_fold_rel (formula : List Clause) (e0 ev : List Int)
    (counts : List Nat) :
    ∀ l : List Nat,
      (∀ i ∈ l, ((SatP.get_unsatisfied_clausules (SatP.helper formula ((i : Int)))
          (SatP.flip_variable e0 ((i : Int)))).length : Int)
        - ((SatP.get_unsatisfied_clausules (SatP.helper formula ((i : Int))) e0).length : Int)
        = - SatM.Gsat.sat_change_if_fliped formula ev counts ((i : Int))) →
      ∀ (b : Int) (fl : List Int),
        (l.foldl (SatP.best_flips_step formula) (b, fl, e0)).2.1
          = (l.foldl (SatM.Gsat.best_flips_step formula ev counts) (-b, fl)).2 := by
  intro l
  induction l with
  | nil => intro _ b fl; rfl
  | cons i rest ih =>
    intro hrel b fl
    rw [List.foldl_cons, List.foldl_cons,
      best_flips_step_rel formula e0 ev counts i b fl (hrel i (List.mem_cons_self i rest))]
    have hstep := ih (fun j hj => hrel j (List.mem_cons_of_mem i hj))
      (-(SatM.Gsat.best_flips_step formula ev counts (-b, fl) i).1)
      ((SatM.Gsat.best_flips_step formula ev counts (-b, fl) i).2)
    rw [neg_neg] at hstep
    rw [hstep]

/-- Claim C3 (amended): on related configurations with a correct tracker
and clauses that do not repeat a variable, the flip-measure-flip-back
candidate list of `src/gsat.py` equals the pure-delta candidate list of
`src/sat/gsat.py`. -/
theorem c3_best_flips_equiv (formula : List Clause) (n : Nat)
    (e ev : List Int) (counts : List Nat)
    (hrel : Related n e ev)
    (hcounts : counts = SatM.Gsat.calculate_counts formula ev)
    (hvars : ∀ c ∈ formula, ∀ l ∈ c, 1 ≤ l.natAbs ∧ l.natAbs ≤ n)
    (hdup : ∀ c ∈ formula, (c.map Int.natAbs).Nodup) :
    SatP.get_best_flips formula n e = SatM.Gsat.get_best_flips formula n ev counts := by
  subst hcounts
  unfold SatP.get_best_flips SatM.Gsat.get_best_flips
  exact best_flips_fold_rel formula e ev _ (List.range' 1 n)
    (fun i hi => by
      have hb := List.mem_range'_1.mp hi
      exact old_change_eq_neg_sat_change formula n e ev hrel hvars hdup i hb.1
        (by omega))
    (formula.length : Int) []

/-- Counterexample to C3 as stated: on the duplicate-literal formula
`[[2,2]]` over two variables the two candidate lists differ (`[1,2]` vs
`[2]`): flipping variable `2` unsatisfies the clause, which the
flip-measure scan registers as change `1 = len(clauses)` and appends,
while the stored count `2` makes the pure delta `0`, so the count-based
scan restarts its list instead. -/
theorem c3_best_flips_counterexample :
    ¬ (SatP.get_best_flips [[2,2]] 2 [1,2]
      = SatM.Gsat.get_best_flips [[2,2]] 2 [0,1,2,2,1]
          (SatM.Gsat.calculate_counts [[2,2]] [0,1,2,2,1])) := by
  decide

/-- Witness for C3 on `[[1,2],[-1,-2]]` with related configurations. -/
theorem c3_best_flips_equiv_witness :
    (Related 2 [1,2] [0,1,2,2,1]
      ∧ ([2,0] : List Nat) = SatM.Gsat.calculate_counts [[1,2],[-1,-2]] [0,1,2,2,1]
      ∧ (∀ c ∈ [[1,2],[-1,-2]], ∀ l ∈ c, 1 ≤ Int.natAbs l ∧ Int.natAbs l ≤ 2)
      ∧ (∀ c ∈ ([[1,2],[-1,-2]] : List Clause), (c.map Int.natAbs).Nodup))
    ∧ SatP.get_best_flips [[1,2],[-1,-2]] 2 [1,2]
        = SatM.Gsat.get_best_flips [[1,2],[-1,-2]] 2 [0,1,2,2,1] [2,0] :=
  ⟨⟨by decide, by decide, by decide, by decide⟩,
    c3_best_flips_equiv [[1,2],[-1,-2]] 2 [1,2] [0,1,2,2,1] [2,0]
      (by decide) (by decide) (by decide) (by decide)⟩

/-- Witness side of C2 and its counterexample. -/
theorem c2_sat_change_correct_witness :
    (MirrorInv 2 [0,1,2,2,1]
      ∧ ([2,0] : List Nat) = SatM.Gsat.calculate_counts [[1,2],[-1,-2]] [0,1,2,2,1]
      ∧ (∀ c ∈ [[1,2],[-1,-2]], ∀ l ∈ c, 1 ≤ Int.natAbs l ∧ Int.natAbs l ≤ 2)
      ∧ (∀ c ∈ ([[1,2],[-1,-2]] : List Clause), (c.map Int.natAbs).Nodup)
      ∧ 1 ≤ 1 ∧ 1 ≤ 2)
    ∧ SatM.Gsat.sat_change_if_fliped [[1,2],[-1,-2]] [0,1,2,2,1] [2,0] ((1 : Nat) : Int)
      = ((SatM.satisfied_count [[1,2],[-1,-2]]
            (SatM.flip_variable [0,1,2,2,1] ((1 : Nat) : Int)) : Int)
        - (SatM.satisfied_count [[1,2],[-1,-2]] [0,1,2,2,1] : Int)) :=
  ⟨⟨by decide, by decide, by decide, by decide, by decide, by decide⟩,
    c2_sat_change_correct [[1,2],[-1,-2]] 2 [0,1,2,2,1] [2,0] 1
      (by decide) (by decide) (by decide) (by decide) (by decide) (by decide)⟩

/-- Counterexample to C2 as stated: on `[[1,1]]` (variable `1` occurs
twice in one clause) the reported delta is `0` but the true change in
the satisfied-clause count is `-1`. -/
theorem c2_sat_change_counterexample :
    ¬ (SatM.Gsat.sat_change_if_fliped [[1,1]] [0,1,1]
        (SatM.Gsat.calculate_counts [[1,1]] [0,1,1]) ((1 : Nat) : Int)
      = ((SatM.satisfied_count [[1,1]]
            (SatM.flip_variable [0,1,1] ((1 : Nat) : Int)) : Int)
        - (SatM.satisfied_count [[1,1]] [0,1,1] : Int))) := by
  decide

end BestFlipsFold

section ProbabilityBoundary

/-- Claim C8 (amended): in `_do_gsat_try`, for every draw `r` in `[0,1)`,
with `probability = 1` the greedy branch is never taken, and with
`probability = 0` the greedy branch is taken whenever `r > 0`; the
boundary draw `r = 0` still satisfies `r <= 0` and takes the random-walk
branch (see the counterexample). -/
theorem c8_probability_boundary (formula : List Clause) (nv : Nat) (d : Draw)
    (st : SatM.Gsat.GTrial) (h0 : 0 ≤ d.r) (h1 : d.r < 1) :
    (SatM.Gsat.gsat_step formula nv 1 d st).2 ≠ SatM.Gsat.StepKind.greedy
    ∧ (0 < d.r →
        (SatM.Gsat.gsat_step formula nv 0 d st).2 ≠ SatM.Gsat.StepKind.walk) := by
  constructor
  · unfold SatM.Gsat.gsat_step
    dsimp only
    by_cases hu : (SatM.Gsat.get_unsatisfied formula st.counts).length = 0
    · rw [if_pos hu]
      simp
    · rw [if_neg hu, if_pos (le_of_lt h1)]
      simp
  · intro hpos
    unfold SatM.Gsat.gsat_step
    dsimp only
    by_cases hu : (SatM.Gsat.get_unsatisfied formula st.counts).length = 0
    · rw [if_pos hu]
      simp
    · rw [if_neg hu, if_neg (not_le.mpr hpos)]
      simp

/-- Witness for C8 at `r = 1/2` on `[[1]]`. -/
theorem c8_probability_boundary_witness :
    ((0 : ℚ) ≤ 1/2 ∧ (1/2 : ℚ) < 1)
    ∧ ((SatM.Gsat.gsat_step [[1]] 1 1 ⟨1/2, 0, 0⟩
          ⟨[], 0, false, [0,-1,-1], [0]⟩).2 ≠ SatM.Gsat.StepKind.greedy
      ∧ (0 < ((1 : ℚ)/2) →
          (SatM.Gsat.gsat_step [[1]] 1 0 ⟨1/2, 0, 0⟩
            ⟨[], 0, false, [0,-1,-1], [0]⟩).2 ≠ SatM.Gsat.StepKind.walk)) :=
  ⟨⟨by norm_num, by norm_num⟩,
    c8_probability_boundary [[1]] 1 ⟨1/2, 0, 0⟩ ⟨[], 0, false, [0,-1,-1], [0]⟩
      (by norm_num) (by norm_num)⟩

/-- Counterexample to C8 as stated: with `probability = 0` and the
possible draw `r = 0`, the condition `random.random() <= probability`
holds and the step is a random-walk step, not a greedy one. -/
theorem c8_probability_counterexample :
    (SatM.Gsat.gsat_step [[1]] 1 0 ⟨0, 0, 0⟩
      ⟨[], 0, false, [0,-1,-1], [0]⟩).2 = SatM.Gsat.StepKind.walk := by
  rfl

end ProbabilityBoundary

section EpsSafety

/-- Claim C7 (amended): for a candidate variable `v` (a literal of a
currently unsatisfied clause of the formula) whose break count is `0`,
the denominator of `f` is positive for all `cm, cb ≥ 0` (so the division
never raises), the returned value is `make ** cm / ε` when `cb > 0` and
`make ** cm / (ε + 1)` when `cb = 0` (Python evaluates `0.0 ** 0.0` to
`1.0`), and in both cases the value is positive because a candidate's
make count is at least `1`. -/
theorem c7_eps_safety (formula : List Clause) (n : Nat) (e : List Int)
    (v : Int) (c : Clause) (powfn : Nat → ℚ → ℚ) (cm cb : ℚ)
    (hinv : PlainInv n e)
    (hvars : ∀ c' ∈ formula, ∀ l ∈ c', 1 ≤ l.natAbs ∧ l.natAbs ≤ n)
    (hcm : 0 ≤ cm) (hcb : 0 ≤ cb)
    (hcmem : c ∈ formula) (hvc : v ∈ c)
    (hunsat : c.any (SatP.evaluate_variable e) = false)
    (hpow0 : ∀ x : ℚ, x ≠ 0 → powfn 0 x = 0)
    (hpow00 : powfn 0 0 = 1)
    (hpow1 : ∀ (b : Nat) (x : ℚ), 1 ≤ b → 0 ≤ x → 1 ≤ powfn b x)
    (hbreak : (SatP.satisfaction_changes_on_flip (SatP.helper formula v) e v).2 = 0) :
    (0 < SatP.eps + powfn
        (SatP.satisfaction_changes_on_flip (SatP.helper formula v) e v).2 cb)
    ∧ (cb ≠ 0 → SatP.f powfn formula e v cm cb
        = powfn (SatP.satisfaction_changes_on_flip (SatP.helper formula v) e v).1 cm
          / SatP.eps)
    ∧ (cb = 0 → SatP.f powfn formula e v cm cb
        = powfn (SatP.satisfaction_changes_on_flip (SatP.helper formula v) e v).1 cm
          / (SatP.eps + 1))
    ∧ 0 < SatP.f powfn formula e v cm cb := by
  have hb := hvars c hcmem v hvc
  have heps : (0 : ℚ) < SatP.eps := by
    unfold SatP.eps
    norm_num
  have hvfalse : SatP.evaluate_variable e v = false := by
    rcases Bool.eq_false_or_eq_true (SatP.evaluate_variable e v) with h | h
    · exact absurd h (List.any_eq_false.mp hunsat v hvc)
    · exact h
  have hcform : c ∈ SatP.helper formula v := by
    unfold SatP.helper SatP.find_clauses_for_var
    apply List.mem_filter.mpr
    refine ⟨hcmem, List.any_eq_true.mpr ⟨v, hvc, ?_⟩⟩
    rw [beq_iff_eq]
  have hvtrue : SatP.evaluate_variable (SatP.flip_variable e v) v = true := by
    rw [SatP.evaluate_flip_same_plain (n := n) v v hinv hb.1 hb.2 rfl, hvfalse]
    rfl
  have hmake : 1 ≤ (SatP.satisfaction_changes_on_flip (SatP.helper formula v) e v).1 := by
    unfold SatP.satisfaction_changes_on_flip SatP.get_formula_evals
    dsimp only
    rw [List.zip_map']
    rw [List.countP_map]
    have : 0 < (SatP.helper formula v).countP
        ((fun p : Bool × Bool => p.2 && !p.1) ∘
          (fun x => (x.any (SatP.evaluate_variable e),
            x.any (SatP.evaluate_variable (SatP.flip_variable e v))))) := by
      apply List.countP_pos_iff.mpr
      refine ⟨c, hcform, ?_⟩
      simp only [Function.comp_apply]
      rw [Bool.and_eq_true_iff]
      refine ⟨List.any_eq_true.mpr ⟨v, hvc, hvtrue⟩, by rw [hunsat]; rfl⟩
    omega
  have hnum : 1 ≤ powfn
      (SatP.satisfaction_changes_on_flip (SatP.helper formula v) e v).1 cm :=
    hpow1 _ cm hmake hcm
  refine ⟨?_, ?_, ?_, ?_⟩
  · rw [hbreak]
    by_cases hc0 : cb = 0
    · rw [hc0, hpow00]
      linarith
    · rw [hpow0 cb hc0]
      linarith
  · intro hc0
    unfold SatP.f
    dsimp only
    rw [hbreak, hpow0 cb hc0, add_zero]
  · intro hc0
    unfold SatP.f
    dsimp only
    rw [hbreak, hc0, hpow00]
  · unfold SatP.f
    dsimp only
    rw [hbreak]
    by_cases hc0 : cb = 0
    · rw [hc0, hpow00]
      apply div_pos (by linarith) (by linarith)
    · rw [hpow0 cb hc0]
      apply div_pos (by linarith) (by linarith)

end EpsSafety

section EpsSafetyInstances

/-- Witness for C7: candidate literal `1` of the unsatisfied clause
`[1,2]` under the all-false configuration, exponents `cm = 0`,
`cb = 23/10`. -/
theorem c7_eps_safety_witness :
    (PlainInv 2 [-1,-2]
      ∧ (∀ c' ∈ [[1,2]], ∀ l ∈ c', 1 ≤ Int.natAbs l ∧ Int.natAbs l ≤ 2)
      ∧ ((0:ℚ) ≤ 0) ∧ ((0:ℚ) ≤ 23/10)
      ∧ ([1,2] ∈ ([[1,2]] : List Clause)) ∧ ((1 : Int) ∈ [1,2])
      ∧ List.any [1,2] (SatP.evaluate_variable [-1,-2]) = false
      ∧ (∀ x : ℚ, x ≠ 0 → SatP.pyPowModel 0 x = 0)
      ∧ SatP.pyPowModel 0 0 = 1
      ∧ (∀ (b : Nat) (x : ℚ), 1 ≤ b → 0 ≤ x → 1 ≤ SatP.pyPowModel b x)
      ∧ (SatP.satisfaction_changes_on_flip (SatP.helper [[1,2]] 1) [-1,-2] 1).2 = 0)
    ∧ ((0 < SatP.eps + SatP.pyPowModel
          (SatP.satisfaction_changes_on_flip (SatP.helper [[1,2]] 1) [-1,-2] 1).2 (23/10))
      ∧ ((23/10 : ℚ) ≠ 0 → SatP.f SatP.pyPowModel [[1,2]] [-1,-2] 1 0 (23/10)
          = SatP.pyPowModel
              (SatP.satisfaction_changes_on_flip (SatP.helper [[1,2]] 1) [-1,-2] 1).1 0
            / SatP.eps)
      ∧ ((23/10 : ℚ) = 0 → SatP.f SatP.pyPowModel [[1,2]] [-1,-2] 1 0 (23/10)
          = SatP.pyPowModel
              (SatP.satisfaction_changes_on_flip (SatP.helper [[1,2]] 1) [-1,-2] 1).1 0
            / (SatP.eps + 1))
      ∧ 0 < SatP.f SatP.pyPowModel [[1,2]] [-1,-2] 1 0 (23/10)) :=
  ⟨⟨by decide, by decide, by norm_num, by norm_num, by decide, by decide, by decide,
    fun x hx => by simp [SatP.pyPowModel, hx],
    by norm_num [SatP.pyPowModel],
    fun b x hb hx => by
      unfold SatP.pyPowModel
      split_ifs with h1 h2
      · norm_num
      · omega
      · exact_mod_cast hb,
    by decide⟩,
    c7_eps_safety [[1,2]] 2 [-1,-2] 1 [1,2] SatP.pyPowModel 0 (23/10)
      (by decide) (by decide) (by norm_num) (by norm_num) (by decide) (by decide)
      (by decide)
      (fun x hx => by simp [SatP.pyPowModel, hx])
      (by norm_num [SatP.pyPowModel])
      (fun b x hb hx => by
        unfold SatP.pyPowModel
        split_ifs with h1 h2
        · norm_num
        · omega
        · exact_mod_cast hb)
      (by decide)⟩

/-- Counterexample to C7 as stated: at `cb = 0` Python evaluates
`0 ** 0.0` to `1.0`, so the score is `make ** cm / (ε + 1)`, not
`make ** cm / ε`. -/
theorem c7_eps_counterexample :
    SatP.f SatP.pyPowModel [[1,2]] [-1,-2] 1 0 0
      ≠ SatP.pyPowModel
          ((SatP.satisfaction_changes_on_flip (SatP.helper [[1,2]] 1) [-1,-2] 1).1) 0
        / SatP.eps := by
  have hmb : SatP.satisfaction_changes_on_flip (SatP.helper [[1,2]] 1) [-1,-2] 1
      = (1, 0) := by decide
  unfold SatP.f
  dsimp only
  rw [hmb]
  norm_num [SatP.pyPowModel, SatP.eps]

end EpsSafetyInstances

section SeedDeterminism

set_option maxHeartbeats 2000000 in
/-- Claim C4 fails on the code: two runs of `_do_randsat_try` with
identical Python-stream draws (the stream `random.seed` controls) but
different numpy-global-stream draws flip different variables and return
different best assignments.  `random.seed(seed)` never seeds
`numpy.random`, so a fixed seed does not make the probabilistic variant
reproducible. -/
theorem c4_numpy_stream_divergence :
    (SatP.do_randsat_try [[1,2]] 2 0 (23/10) SatP.pyPowModel
        (fun _ => false) (fun _ => ⟨0, 0, 0⟩) (fun _ => 0) 2).1.bestEv
      ≠ (SatP.do_randsat_try [[1,2]] 2 0 (23/10) SatP.pyPowModel
        (fun _ => false) (fun _ => ⟨0, 0, 0⟩) (fun _ => (3/4 : ℚ)) 2).1.bestEv := by
  have hbits : SatP.set_random 2 (fun _ => false) = [-1,-2] := by decide
  have hA1 : SatP.randsat_step [[1,2]] 0 (23/10) SatP.pyPowModel ⟨0,0,0⟩ 0
      ⟨[], 0, [-1,-2]⟩ = (⟨[-1,-2], 0, [1,-2]⟩, false) := by
    norm_num [SatP.randsat_step, SatP.get_unsatisfied_clausules, SatP.evaluate_variable,
      SatP.f, SatP.satisfaction_changes_on_flip, SatP.get_formula_evals, SatP.helper,
      SatP.find_clauses_for_var, SatP.flip_variable, SatP.np_choice, SatP.eps,
      SatP.pyPowModel]
  have hA2 : SatP.randsat_step [[1,2]] 0 (23/10) SatP.pyPowModel ⟨0,0,0⟩ 0
      ⟨[-1,-2], 0, [1,-2]⟩ = (⟨[1,-2], 1, [1,-2]⟩, true) := by
    norm_num [SatP.randsat_step, SatP.get_unsatisfied_clausules, SatP.evaluate_variable,
      SatP.flip_variable]
  have hB1 : SatP.randsat_step [[1,2]] 0 (23/10) SatP.pyPowModel ⟨0,0,0⟩ (3/4)
      ⟨[], 0, [-1,-2]⟩ = (⟨[-1,-2], 0, [-1,2]⟩, false) := by
    norm_num [SatP.randsat_step, SatP.get_unsatisfied_clausules, SatP.evaluate_variable,
      SatP.f, SatP.satisfaction_changes_on_flip, SatP.get_formula_evals, SatP.helper,
      SatP.find_clauses_for_var, SatP.flip_variable, SatP.np_choice, SatP.eps,
      SatP.pyPowModel]
  have hB2 : SatP.randsat_step [[1,2]] 0 (23/10) SatP.pyPowModel ⟨0,0,0⟩ (3/4)
      ⟨[-1,-2], 0, [-1,2]⟩ = (⟨[-1,2], 1, [-1,2]⟩, true) := by
    norm_num [SatP.randsat_step, SatP.get_unsatisfied_clausules, SatP.evaluate_variable,
      SatP.flip_variable]
  have hAfinal : (SatP.do_randsat_try [[1,2]] 2 0 (23/10) SatP.pyPowModel
      (fun _ => false) (fun _ => ⟨0, 0, 0⟩) (fun _ => 0) 2).1.bestEv = [1,-2] := by
    unfold SatP.do_randsat_try
    rw [hbits]
    show ((if (SatP.randsat_step [[1,2]] 0 (23/10) SatP.pyPowModel ⟨0,0,0⟩ 0
        ⟨[], 0, [-1,-2]⟩).2 then
        ((SatP.randsat_step [[1,2]] 0 (23/10) SatP.pyPowModel ⟨0,0,0⟩ 0
          ⟨[], 0, [-1,-2]⟩).1, 0)
      else SatP.randsat_loop [[1,2]] 0 (23/10) SatP.pyPowModel (fun _ => ⟨0,0,0⟩)
        (fun _ => 0) 1 1 (SatP.randsat_step [[1,2]] 0 (23/10) SatP.pyPowModel ⟨0,0,0⟩ 0
          ⟨[], 0, [-1,-2]⟩).1 : SatP.RTrial × Nat)).1.bestEv = [1,-2]
    rw [hA1]
    show (SatP.randsat_loop [[1,2]] 0 (23/10) SatP.pyPowModel (fun _ => ⟨0,0,0⟩)
      (fun _ => 0) 1 1 ⟨[-1,-2], 0, [1,-2]⟩).1.bestEv = [1,-2]
    show ((SatP.randsat_step [[1,2]] 0 (23/10) SatP.pyPowModel ⟨0,0,0⟩ 0
      ⟨[-1,-2], 0, [1,-2]⟩).1, 1).1.bestEv = [1,-2]
    rw [hA2]
  have hBfinal : (SatP.do_randsat_try [[1,2]] 2 0 (23/10) SatP.pyPowModel
      (fun _ => false) (fun _ => ⟨0, 0, 0⟩) (fun _ => (3/4 : ℚ)) 2).1.bestEv = [-1,2] := by
    unfold SatP.do_randsat_try
    rw [hbits]
    show ((if (SatP.randsat_step [[1,2]] 0 (23/10) SatP.pyPowModel ⟨0,0,0⟩ (3/4)
        ⟨[], 0, [-1,-2]⟩).2 then
        ((SatP.randsat_step [[1,2]] 0 (23/10) SatP.pyPowModel ⟨0,0,0⟩ (3/4)
          ⟨[], 0, [-1,-2]⟩).1, 0)
      else SatP.randsat_loop [[1,2]] 0 (23/10) SatP.pyPowModel (fun _ => ⟨0,0,0⟩)
        (fun _ => (3/4 : ℚ)) 1 1 (SatP.randsat_step [[1,2]] 0 (23/10) SatP.pyPowModel
          ⟨0,0,0⟩ (3/4) ⟨[], 0, [-1,-2]⟩).1 : SatP.RTrial × Nat)).1.bestEv = [-1,2]
    rw [hB1]
    show (SatP.randsat_loop [[1,2]] 0 (23/10) SatP.pyPowModel (fun _ => ⟨0,0,0⟩)
      (fun _ => (3/4 : ℚ)) 1 1 ⟨[-1,-2], 0, [-1,2]⟩).1.bestEv = [-1,2]
    show ((SatP.randsat_step [[1,2]] 0 (23/10) SatP.pyPowModel ⟨0,0,0⟩ (3/4)
      ⟨[-1,-2], 0, [-1,2]⟩).1, 1).1.bestEv = [-1,2]
    rw [hB2]
  rw [hAfinal, hBfinal]
  decide

end SeedDeterminism

section RunSupport

theorem getD_mem_of_lt {α : Type} (l : List α) (i : Nat) (d : α)
    (h : i < l.length) : l.getD i d ∈ l := by
  rw [List.getD_eq_getElem l d h]
  exact List.getElem_mem h

theorem countP_eq_zero_beq {α : Type} (p : α → Bool) (c : List α) :
    ((c.countP p == 0) : Bool) = !(c.any p) := by
  rcases Bool.eq_false_or_eq_true (c.any p) with h | h
  · rw [h]
    have h0 : c.countP p ≠ 0 := (any_iff_countP_ne p c).mp h
    rw [beq_eq_false_iff_ne.mpr h0]
    rfl
  · rw [h]
    have h0 : c.countP p = 0 := by
      rw [List.countP_eq_zero]
      exact List.any_eq_false.mp h
    rw [h0]
    rfl

/-- With a correct tracker, the count-based unsatisfied-clause scan of
`Gsat` returns exactly the clauses the full scan returns. -/
theorem SatM.Gsat.get_unsatisfied_eq (formula : List Clause) (ev : List Int) :
    SatM.Gsat.get_unsatisfied formula (SatM.Gsat.calculate_counts formula ev)
      = SatM.get_unsatisfied_clauses formula ev := by
  unfold SatM.Gsat.get_unsatisfied SatM.Gsat.calculate_counts
    SatM.get_unsatisfied_clauses
  induction formula with
  | nil => rfl
  | cons c rest ih =>
    rw [List.map_cons, List.zip_cons_cons, List.filter_cons, List.filter_cons]
    have hcond : (((c, c.countP (SatM.evaluate_variable ev)) : Clause × Nat).2 == 0)
        = !(c.any (SatM.evaluate_variable ev)) :=
      countP_eq_zero_beq (SatM.evaluate_variable ev) c
    rw [hcond]
    rcases Bool.eq_false_or_eq_true (c.any (SatM.evaluate_variable ev)) with h | h
    · rw [h]
      show List.map Prod.fst (List.filter _ _) = List.filter _ rest
      exact ih
    · rw [h]
      show List.map Prod.fst ((c, c.countP (SatM.evaluate_variable ev)) :: List.filter _ _)
        = c :: List.filter _ rest
      rw [List.map_cons, ih]

end RunSupport

section RunSupport2

/-- Packaged non-emptiness of the incremental greedy scan. -/
theorem SatM.Gsat.get_best_flips_ne_nil (formula : List Clause) (nv : Nat)
    (ev : List Int) (counts : List Nat) (hnv : 1 ≤ nv) :
    SatM.Gsat.get_best_flips formula nv ev counts ≠ [] := by
  obtain ⟨m, rfl⟩ : ∃ m, nv = m + 1 := ⟨nv - 1, by omega⟩
  have hrange : List.range' 1 (m+1) = 1 :: List.range' 2 m := List.range'_succ 1 m 1
  unfold SatM.Gsat.get_best_flips
  rw [hrange, List.foldl_cons]
  apply SatM.Gsat.best_flips_fold_ne_nil
  unfold SatM.Gsat.best_flips_step
  have hch := SatM.Gsat.sat_change_lower formula ev counts ((1 : Nat) : Int)
  dsimp only
  split
  · simp
  · split
    · simp
    · omega

/-- Every candidate the incremental greedy scan returns is a variable in
`1..nv`. -/
theorem SatM.Gsat.get_best_flips_mem_bound (formula : List Clause) (nv : Nat)
    (ev : List Int) (counts : List Nat) :
    ∀ x ∈ SatM.Gsat.get_best_flips formula nv ev counts,
      1 ≤ x.natAbs ∧ x.natAbs ≤ nv := by
  have hfold : ∀ (l : List Nat) (st : Int × List Int),
      (∀ x ∈ st.2, 1 ≤ x.natAbs ∧ x.natAbs ≤ nv) →
      (∀ i ∈ l, 1 ≤ i ∧ i ≤ nv) →
      ∀ x ∈ (l.foldl (SatM.Gsat.best_flips_step formula ev counts) st).2,
        1 ≤ x.natAbs ∧ x.natAbs ≤ nv := by
    intro l
    induction l with
    | nil => intro st hst _; exact hst
    | cons i rest ih =>
      intro st hst hl
      rw [List.foldl_cons]
      apply ih
      · unfold SatM.Gsat.best_flips_step
        dsimp only
        have hib := hl i (List.mem_cons_self i rest)
        split
        · intro x hx
          rcases List.mem_append.mp hx with hx1 | hx1
          · exact hst x hx1
          · have : x = ((i : Nat) : Int) := List.mem_singleton.mp hx1
            rw [this, Int.natAbs_ofNat]
            exact hib
        · split
          · intro x hx
            have : x = ((i : Nat) : Int) := List.mem_singleton.mp hx
            rw [this, Int.natAbs_ofNat]
            exact hib
          · exact hst
      · exact fun j hj => hl j (List.mem_cons_of_mem i hj)
  intro x hx
  exact hfold (List.range' 1 nv) (-(formula.length : Int), [])
    (fun y hy => absurd hy (List.not_mem_nil y))
    (fun i hi => by
      have := List.mem_range'_1.mp hi
      omega) x hx

end RunSupport2

section StepInvariant

/-- Members of the count-based unsatisfied-clause list are clauses of
the formula. -/
theorem SatM.Gsat.mem_get_unsatisfied {formula : List Clause} {counts : List Nat}
    {c : Clause} (h : c ∈ SatM.Gsat.get_unsatisfied formula counts) :
    c ∈ formula := by
  unfold SatM.Gsat.get_unsatisfied at h
  rcases List.mem_map.mp h with ⟨p, hp, hpc⟩
  have hmem := (List.of_mem_zip (List.mem_filter.mp hp).1).1
  rwa [hpc] at hmem

/-- One `_do_gsat_try` iteration preserves the trial invariant: the
mirror shape of the working configuration, the tracker equation, and the
cached best count being the recomputed satisfied count of the cached
best configuration. -/
theorem SatM.Gsat.gsat_step_inv (formula : List Clause) (n : Nat) (prob : ℚ)
    (d : Draw) (st : SatM.Gsat.GTrial)
    (hvars : ∀ c ∈ formula, ∀ l ∈ c, 1 ≤ l.natAbs ∧ l.natAbs ≤ n)
    (hne : ∀ c ∈ formula, c ≠ [])
    (hn : 1 ≤ n)
    (hinv : SatM.Gsat.GInv formula n st) :
    SatM.Gsat.GInv formula n (SatM.Gsat.gsat_step formula n prob d st).1 := by
  obtain ⟨hm, hc, hb⟩ := hinv
  have hueq : SatM.Gsat.get_unsatisfied formula st.counts
      = SatM.get_unsatisfied_clauses formula st.ev := by
    rw [hc]
    exact SatM.Gsat.get_unsatisfied_eq formula st.ev
  unfold SatM.Gsat.gsat_step
  dsimp only
  set st1 := (if st.bestCnt ≤ formula.length
        - (SatM.Gsat.get_unsatisfied formula st.counts).length then
      { st with
        bestCnt := formula.length - (SatM.Gsat.get_unsatisfied formula st.counts).length,
        bestEv := st.ev }
    else st) with hst1def
  have h1ev : st1.ev = st.ev := by
    rw [hst1def]
    split <;> rfl
  have h1ct : st1.counts = st.counts := by
    rw [hst1def]
    split <;> rfl
  have h1b : st1.bestCnt = SatM.satisfied_count formula st1.bestEv := by
    rw [hst1def]
    split
    · show formula.length - (SatM.Gsat.get_unsatisfied formula st.counts).length
        = SatM.satisfied_count formula st.ev
      rw [hueq]
      rfl
    · exact hb
  have hflip : ∀ v : Int, 1 ≤ v.natAbs → v.natAbs ≤ n →
      SatM.Gsat.GInv formula n
        { st1 with
          ev := (SatM.Gsat.flip_variable formula st1.ev st1.counts v).1,
          counts := (SatM.Gsat.flip_variable formula st1.ev st1.counts v).2 } := by
    intro v hv1 hvn
    refine ⟨?_, ?_, h1b⟩
    · show MirrorInv n (SatM.Gsat.flip_variable formula st1.ev st1.counts v).1
      rw [SatM.Gsat.flip_fst, h1ev]
      exact SatM.flip_mirrorInv v hm hv1 hvn
    · show (SatM.Gsat.flip_variable formula st1.ev st1.counts v).2
        = SatM.Gsat.calculate_counts formula
            (SatM.Gsat.flip_variable formula st1.ev st1.counts v).1
      rw [SatM.Gsat.flip_fst, h1ev, h1ct, hc]
      exact SatM.Gsat.flip_counts_correct (n := n) formula st.ev v hm hvars hv1 hvn
  by_cases hu : (SatM.Gsat.get_unsatisfied formula st.counts).length = 0
  · rw [if_pos hu]
    exact ⟨h1ev ▸ hm, by
      show st1.counts = SatM.Gsat.calculate_counts formula st1.ev
      rw [h1ct, h1ev, hc], h1b⟩
  · have hulen : 0 < (SatM.Gsat.get_unsatisfied formula st.counts).length :=
      Nat.pos_of_ne_zero hu
    rw [if_neg hu]
    by_cases hr : d.r ≤ prob
    · rw [if_pos hr]
      apply hflip
      all_goals {
        have hcmem0 : (SatM.Gsat.get_unsatisfied formula st.counts).getD
            (d.idx1 % (SatM.Gsat.get_unsatisfied formula st.counts).length) []
            ∈ SatM.Gsat.get_unsatisfied formula st.counts :=
          getD_mem_of_lt _ _ _ (Nat.mod_lt _ hulen)
        have hcf : (SatM.Gsat.get_unsatisfied formula st.counts).getD
            (d.idx1 % (SatM.Gsat.get_unsatisfied formula st.counts).length) []
            ∈ formula := SatM.Gsat.mem_get_unsatisfied hcmem0
        have hcne := hne _ hcf
        have hclen : 0 < ((SatM.Gsat.get_unsatisfied formula st.counts).getD
            (d.idx1 % (SatM.Gsat.get_unsatisfied formula st.counts).length) []).length :=
          List.length_pos.mpr hcne
        have hvmem : ((SatM.Gsat.get_unsatisfied formula st.counts).getD
            (d.idx1 % (SatM.Gsat.get_unsatisfied formula st.counts).length) []).getD
            (d.idx2 % ((SatM.Gsat.get_unsatisfied formula st.counts).getD
              (d.idx1 % (SatM.Gsat.get_unsatisfied formula st.counts).length) []).length) 0
            ∈ (SatM.Gsat.get_unsatisfied formula st.counts).getD
              (d.idx1 % (SatM.Gsat.get_unsatisfied formula st.counts).length) [] :=
          getD_mem_of_lt _ _ _ (Nat.mod_lt _ hclen)
        have := hvars _ hcf _ hvmem
        omega
      }
    · rw [if_neg hr]
      apply hflip
      all_goals {
        have hbne := SatM.Gsat.get_best_flips_ne_nil formula n st1.ev st1.counts hn
        have hblen : 0 < (SatM.Gsat.get_best_flips formula n st1.ev st1.counts).length :=
          List.length_pos.mpr hbne
        have hvmem : (SatM.Gsat.get_best_flips formula n st1.ev st1.counts).getD
            (d.idx1 % (SatM.Gsat.get_best_flips formula n st1.ev st1.counts).length) 0
            ∈ SatM.Gsat.get_best_flips formula n st1.ev st1.counts :=
          getD_mem_of_lt _ _ _ (Nat.mod_lt _ hblen)
        have := SatM.Gsat.get_best_flips_mem_bound formula n st1.ev st1.counts _ hvmem
        omega
      }

end StepInvariant

section LoopSpec

/-- The trial loop preserves the invariant and uses between `1` and
`fuel` iterations: the returned `iter_no` lies in `[i, i + fuel)`. -/
theorem SatM.Gsat.gsat_loop_spec (formula : List Clause) (n : Nat) (prob : ℚ)
    (draws : Nat → Draw)
    (hvars : ∀ c ∈ formula, ∀ l ∈ c, 1 ≤ l.natAbs ∧ l.natAbs ≤ n)
    (hne : ∀ c ∈ formula, c ≠ []) (hn : 1 ≤ n) :
    ∀ (fuel i : Nat) (st : SatM.Gsat.GTrial), 1 ≤ fuel →
      SatM.Gsat.GInv formula n st →
      SatM.Gsat.GInv formula n
          (SatM.Gsat.gsat_loop formula n prob draws i fuel st).1
        ∧ i ≤ (SatM.Gsat.gsat_loop formula n prob draws i fuel st).2
        ∧ (SatM.Gsat.gsat_loop formula n prob draws i fuel st).2 < i + fuel := by
  intro fuel
  induction fuel with
  | zero => intro i st h; omega
  | succ k ih =>
    intro i st hf hinv
    rcases k with _ | m
    · have hunf : SatM.Gsat.gsat_loop formula n prob draws i 1 st
          = ((SatM.Gsat.gsat_step formula n prob (draws i) st).1, i) := rfl
      rw [hunf]
      exact ⟨SatM.Gsat.gsat_step_inv formula n prob (draws i) st hvars hne hn hinv,
        le_refl i, by omega⟩
    · have hunf : SatM.Gsat.gsat_loop formula n prob draws i (m+2) st
          = (if (SatM.Gsat.gsat_step formula n prob (draws i) st).2
                = SatM.Gsat.StepKind.halt then
              ((SatM.Gsat.gsat_step formula n prob (draws i) st).1, i)
            else SatM.Gsat.gsat_loop formula n prob draws (i+1) (m+1)
              (SatM.Gsat.gsat_step formula n prob (draws i) st).1) := rfl
      rw [hunf]
      have hstep := SatM.Gsat.gsat_step_inv formula n prob (draws i) st hvars hne hn hinv
      by_cases hk : (SatM.Gsat.gsat_step formula n prob (draws i) st).2
          = SatM.Gsat.StepKind.halt
      · rw [if_pos hk]
        exact ⟨hstep, le_refl i, by omega⟩
      · rw [if_neg hk]
        have hrec := ih (i+1) (SatM.Gsat.gsat_step formula n prob (draws i) st).1
          (by omega) hstep
        exact ⟨hrec.1, by omega, by omega⟩

/-- The working configuration, tracker, solved flag and branch kind of a
step do not depend on the cached best fields. -/
theorem SatM.Gsat.gsat_step_pi (formula : List Clause) (nv : Nat) (prob : ℚ)
    (d : Draw) (st1 st2 : SatM.Gsat.GTrial)
    (hev : st1.ev = st2.ev) (hct : st1.counts = st2.counts)
    (hsol : st1.solved = st2.solved) :
    (SatM.Gsat.gsat_step formula nv prob d st1).1.ev
        = (SatM.Gsat.gsat_step formula nv prob d st2).1.ev
    ∧ (SatM.Gsat.gsat_step formula nv prob d st1).1.counts
        = (SatM.Gsat.gsat_step formula nv prob d st2).1.counts
    ∧ (SatM.Gsat.gsat_step formula nv prob d st1).1.solved
        = (SatM.Gsat.gsat_step formula nv prob d st2).1.solved
    ∧ (SatM.Gsat.gsat_step formula nv prob d st1).2
        = (SatM.Gsat.gsat_step formula nv prob d st2).2 := by
  unfold SatM.Gsat.gsat_step
  dsimp only
  rw [hev, hct]
  split_ifs <;> simp [hsol, hev, hct]

/-- The solved flag and iteration count of the whole trial loop do not
depend on the cached best fields. -/
theorem SatM.Gsat.gsat_loop_pi (formula : List Clause) (n : Nat) (prob : ℚ)
    (draws : Nat → Draw) :
    ∀ (fuel i : Nat) (st1 st2 : SatM.Gsat.GTrial),
      st1.ev = st2.ev → st1.counts = st2.counts → st1.solved = st2.solved →
      (SatM.Gsat.gsat_loop formula n prob draws i fuel st1).1.solved
          = (SatM.Gsat.gsat_loop formula n prob draws i fuel st2).1.solved
      ∧ (SatM.Gsat.gsat_loop formula n prob draws i fuel st1).2
          = (SatM.Gsat.gsat_loop formula n prob draws i fuel st2).2 := by
  intro fuel
  induction fuel with
  | zero => intro i st1 st2 hev hct hsol; exact ⟨hsol, rfl⟩
  | succ k ih =>
    intro i st1 st2 hev hct hsol
    have hpi := SatM.Gsat.gsat_step_pi formula n prob (draws i) st1 st2 hev hct hsol
    rcases k with _ | m
    · exact ⟨hpi.2.2.1, rfl⟩
    · have hunf1 : SatM.Gsat.gsat_loop formula n prob draws i (m+2) st1
          = (if (SatM.Gsat.gsat_step formula n prob (draws i) st1).2
                = SatM.Gsat.StepKind.halt then
              ((SatM.Gsat.gsat_step formula n prob (draws i) st1).1, i)
            else SatM.Gsat.gsat_loop formula n prob draws (i+1) (m+1)
              (SatM.Gsat.gsat_step formula n prob (draws i) st1).1) := rfl
      have hunf2 : SatM.Gsat.gsat_loop formula n prob draws i (m+2) st2
          = (if (SatM.Gsat.gsat_step formula n prob (draws i) st2).2
                = SatM.Gsat.StepKind.halt then
              ((SatM.Gsat.gsat_step formula n prob (draws i) st2).1, i)
            else SatM.Gsat.gsat_loop formula n prob draws (i+1) (m+1)
              (SatM.Gsat.gsat_step formula n prob (draws i) st2).1) := rfl
      rw [hunf1, hunf2]
      by_cases hk : (SatM.Gsat.gsat_step formula n prob (draws i) st1).2
          = SatM.Gsat.StepKind.halt
      · rw [if_pos hk, if_pos (by rw [← hpi.2.2.2]; exact hk)]
        exact ⟨hpi.2.2.1, rfl⟩
      · rw [if_neg hk, if_neg (by rw [← hpi.2.2.2]; exact hk)]
        exact ih (i+1) _ _ hpi.1 hpi.2.1 hpi.2.2.1

end LoopSpec

section RunContract

/-- A trial started from a best cache satisfying the count equation
returns an invariant-satisfying state and uses fewer than `maxIters`
iterations (counting from `iter_no = 0`). -/
theorem SatM.Gsat.do_try_spec (formula : List Clause) (n : Nat) (prob : ℚ)
    (maxIters : Nat) (bits : Nat → Bool) (draws : Nat → Draw)
    (hvars : ∀ c ∈ formula, ∀ l ∈ c, 1 ≤ l.natAbs ∧ l.natAbs ≤ n)
    (hne : ∀ c ∈ formula, c ≠ []) (hn : 1 ≤ n) (hI : 1 ≤ maxIters)
    (best : List Int × Nat × Bool)
    (hbest : best.2.1 = SatM.satisfied_count formula best.1) :
    SatM.Gsat.GInv formula n
        (SatM.Gsat.do_gsat_try formula n prob maxIters bits draws best).1
      ∧ (SatM.Gsat.do_gsat_try formula n prob maxIters bits draws best).2 < maxIters := by
  unfold SatM.Gsat.do_gsat_try
  dsimp only
  have hinit : SatM.Gsat.GInv formula n
      ⟨best.1, best.2.1, best.2.2, SatM.set_random n bits,
        SatM.Gsat.calculate_counts formula (SatM.set_random n bits)⟩ :=
    ⟨SatM.set_random_mirrorInv n bits, rfl, hbest⟩
  have hspec := SatM.Gsat.gsat_loop_spec formula n prob draws hvars hne hn
    maxIters 0 _ hI hinit
  exact ⟨hspec.1, by omega⟩

/-- The trial's solved flag does not depend on the incoming best cache,
so it equals `trial_solved` of the same per-trial draws. -/
theorem SatM.Gsat.do_try_solved_pi (formula : List Clause) (n : Nat) (prob : ℚ)
    (maxIters : Nat) (bits : Nat → Bool) (draws : Nat → Draw)
    (best : List Int × Nat × Bool) (hsol : best.2.2 = false) :
    (SatM.Gsat.do_gsat_try formula n prob maxIters bits draws best).1.solved
      = SatM.Gsat.trial_solved formula n prob maxIters bits draws := by
  unfold SatM.Gsat.trial_solved SatM.Gsat.do_gsat_try
  dsimp only
  exact (SatM.Gsat.gsat_loop_pi formula n prob draws maxIters 0
    ⟨best.1, best.2.1, best.2.2, SatM.set_random n bits,
      SatM.Gsat.calculate_counts formula (SatM.set_random n bits)⟩
    ⟨[], 0, false, SatM.set_random n bits,
      SatM.Gsat.calculate_counts formula (SatM.set_random n bits)⟩
    rfl rfl (by dsimp only; rw [hsol])).1

/-- Full specification of the `Gsat.run` try loop. -/
theorem SatM.Gsat.run_loop_spec (formula : List Clause) (n : Nat) (prob : ℚ)
    (maxIters : Nat) (bitsT : Nat → Nat → Bool) (drawsT : Nat → Nat → Draw)
    (hvars : ∀ c ∈ formula, ∀ l ∈ c, 1 ≤ l.natAbs ∧ l.natAbs ≤ n)
    (hne : ∀ c ∈ formula, c ≠ []) (hn : 1 ≤ n) (hI : 1 ≤ maxIters) :
    ∀ (fuel t : Nat) (best : List Int × Nat × Bool), 1 ≤ fuel →
      best.2.2 = false →
      best.2.1 = SatM.satisfied_count formula best.1 →
      ∃ (bev : List Int) (bcnt : Nat) (bsol : Bool) (tf ic : Nat),
        SatM.Gsat.run_loop formula n prob maxIters bitsT drawsT t fuel best
          = ((bev, bcnt, bsol), tf, ic)
        ∧ bcnt = SatM.satisfied_count formula bev
        ∧ t ≤ tf ∧ tf < t + fuel ∧ ic < maxIters
        ∧ (∀ u, t ≤ u → u < tf →
            SatM.Gsat.trial_solved formula n prob maxIters (bitsT u) (drawsT u) = false)
        ∧ bsol = SatM.Gsat.trial_solved formula n prob maxIters (bitsT tf) (drawsT tf)
        ∧ (bsol = true ∨ tf = t + fuel - 1) := by
  intro fuel
  induction fuel with
  | zero => intro t best h; omega
  | succ k ih =>
    intro t best hf hsol hbcnt
    have htry := SatM.Gsat.do_try_spec formula n prob maxIters (bitsT t) (drawsT t)
      hvars hne hn hI best hbcnt
    have htsol := SatM.Gsat.do_try_solved_pi formula n prob maxIters (bitsT t)
      (drawsT t) best hsol
    rcases k with _ | m
    · have hunf : SatM.Gsat.run_loop formula n prob maxIters bitsT drawsT t 1 best
          = (((SatM.Gsat.do_gsat_try formula n prob maxIters (bitsT t) (drawsT t) best).1.bestEv,
              (SatM.Gsat.do_gsat_try formula n prob maxIters (bitsT t) (drawsT t) best).1.bestCnt,
              (SatM.Gsat.do_gsat_try formula n prob maxIters (bitsT t) (drawsT t) best).1.solved),
             t,
             (SatM.Gsat.do_gsat_try formula n prob maxIters (bitsT t) (drawsT t) best).2) := rfl
      refine ⟨_, _, _, t, _, hunf, htry.1.2.2, le_refl t, by omega, htry.2,
        fun u hu1 hu2 => absurd (by omega : t < t) (lt_irrefl t), htsol,
        Or.inr (by omega)⟩
    · have hunf : SatM.Gsat.run_loop formula n prob maxIters bitsT drawsT t (m+2) best
          = (if (SatM.Gsat.do_gsat_try formula n prob maxIters (bitsT t) (drawsT t) best).1.solved then
              (((SatM.Gsat.do_gsat_try formula n prob maxIters (bitsT t) (drawsT t) best).1.bestEv,
                (SatM.Gsat.do_gsat_try formula n prob maxIters (bitsT t) (drawsT t) best).1.bestCnt,
                (SatM.Gsat.do_gsat_try formula n prob maxIters (bitsT t) (drawsT t) best).1.solved),
               t,
               (SatM.Gsat.do_gsat_try formula n prob maxIters (bitsT t) (drawsT t) best).2)
            else SatM.Gsat.run_loop formula n prob maxIters bitsT drawsT (t+1) (m+1)
              ((SatM.Gsat.do_gsat_try formula n prob maxIters (bitsT t) (drawsT t) best).1.bestEv,
               (SatM.Gsat.do_gsat_try formula n prob maxIters (bitsT t) (drawsT t) best).1.bestCnt,
               (SatM.Gsat.do_gsat_try formula n prob maxIters (bitsT t) (drawsT t) best).1.solved)) := rfl
      rw [hunf]
      by_cases hsolved : (SatM.Gsat.do_gsat_try formula n prob maxIters (bitsT t)
          (drawsT t) best).1.solved
      · rw [if_pos hsolved]
        refine ⟨_, _, _, t, _, rfl, htry.1.2.2, le_refl t, by omega, htry.2,
          fun u hu1 hu2 => absurd (by omega : t < t) (lt_irrefl t), htsol,
          Or.inl hsolved⟩
      · rw [if_neg hsolved]
        have hsolved' : (SatM.Gsat.do_gsat_try formula n prob maxIters (bitsT t)
            (drawsT t) best).1.solved = false := Bool.eq_false_iff.mpr hsolved
        have htsf : SatM.Gsat.trial_solved formula n prob maxIters (bitsT t)
            (drawsT t) = false := by rw [← htsol]; exact hsolved'
        obtain ⟨bev, bcnt, bsol, tf, ic, heq, h1, h2, h3, h4, h5, h6, h7⟩ :=
          ih (t+1)
            ((SatM.Gsat.do_gsat_try formula n prob maxIters (bitsT t) (drawsT t) best).1.bestEv,
             (SatM.Gsat.do_gsat_try formula n prob maxIters (bitsT t) (drawsT t) best).1.bestCnt,
             (SatM.Gsat.do_gsat_try formula n prob maxIters (bitsT t) (drawsT t) best).1.solved)
            (by omega) hsolved' htry.1.2.2
        refine ⟨bev, bcnt, bsol, tf, ic, heq, h1, by omega, by omega, h4, ?_, h6, ?_⟩
        · intro u hu1 hu2
          rcases Nat.eq_or_lt_of_le hu1 with hu | hu
          · rw [← hu]
            exact htsf
          · exact h5 u (by omega) hu2
        · rcases h7 with h | h
          · exact Or.inl h
          · exact Or.inr (by omega)

end RunContract

section RunContractMain

/-- An empty configuration (no trial run yet) satisfies no clause whose
literals are all nonzero, so the initial best count `0` is exact. -/
theorem SatM.satisfied_count_nil (formula : List Clause)
    (hnz : ∀ c ∈ formula, ∀ l ∈ c, l ≠ 0) :
    SatM.satisfied_count formula ([] : List Int) = 0 := by
  rw [SatM.satisfied_count_eq_countP, List.countP_eq_zero]
  intro c hc
  simp only [Bool.not_eq_true, List.any_eq_false]
  intro l hl
  have hne := hnz c hc l hl
  unfold SatM.evaluate_variable SatM.pyGet
  simp only [List.getD_nil, ite_self]
  exact beq_eq_false_iff_ne.mpr hne

/-- C5: `Gsat.run` always returns
`(try_no * max_iters + iter_cnt + 1, best_count, best_evaluation)` for
the first solved trial, or for the last trial if none solves; the count
is the exact number of satisfied clauses of the returned evaluation,
`try_no < max_tries`, `iter_cnt < max_iters`, and every earlier trial
failed. -/
theorem c5_run_contract (formula : List Clause) (n : Nat) (prob : ℚ)
    (maxTries maxIters : Nat) (bitsT : Nat → Nat → Bool)
    (drawsT : Nat → Nat → Draw)
    (hT : 1 ≤ maxTries) (hI : 1 ≤ maxIters) (hn : 1 ≤ n)
    (hvars : ∀ c ∈ formula, ∀ l ∈ c, 1 ≤ l.natAbs ∧ l.natAbs ≤ n)
    (hne : ∀ c ∈ formula, c ≠ []) :
    ∃ (t i : Nat) (best : List Int),
      SatM.Gsat.run formula n prob maxTries maxIters bitsT drawsT
        = (t * maxIters + (i + 1), SatM.satisfied_count formula best,
           SatM.get_evaluation n best)
      ∧ t < maxTries ∧ i < maxIters
      ∧ (∀ t' < t, SatM.Gsat.trial_solved formula n prob maxIters
          (bitsT t') (drawsT t') = false)
      ∧ (SatM.Gsat.trial_solved formula n prob maxIters (bitsT t) (drawsT t) = true
         ∨ t = maxTries - 1) := by
  have h0 : SatM.satisfied_count formula ([] : List Int) = 0 :=
    SatM.satisfied_count_nil formula (fun c hc l hl => by
      have := hvars c hc l hl
      intro hz
      rw [hz] at this
      simp at this)
  obtain ⟨bev, bcnt, bsol, tf, ic, heq, h1, h2, h3, h4, h5, h6, h7⟩ :=
    SatM.Gsat.run_loop_spec formula n prob maxIters bitsT drawsT hvars hne hn hI
      maxTries 0 ([], 0, false) hT rfl h0.symm
  refine ⟨tf, ic, bev, ?_, by omega, h4, ?_, ?_⟩
  · unfold SatM.Gsat.run
    dsimp only
    rw [heq]
    dsimp only
    rw [h1, Nat.add_assoc]
  · intro t' ht'
    exact h5 t' (Nat.zero_le t') ht'
  · rcases h7 with h | h
    · exact Or.inl (by rw [← h6]; exact h)
    · exact Or.inr (by omega)

/-- Concrete instance of C5 on the one-clause formula `[[1]]`. -/
theorem c5_run_contract_witness :
    ((1 ≤ 1)
      ∧ (∀ c ∈ [[(1 : Int)]], ∀ l ∈ c, 1 ≤ l.natAbs ∧ l.natAbs ≤ 1)
      ∧ (∀ c ∈ [[(1 : Int)]], c ≠ []))
    ∧ ∃ (t i : Nat) (best : List Int),
        SatM.Gsat.run [[(1 : Int)]] 1 0 1 1 (fun _ _ => true)
            (fun _ _ => (⟨0, 0, 0⟩ : Draw))
          = (t * 1 + (i + 1), SatM.satisfied_count [[(1 : Int)]] best,
             SatM.get_evaluation 1 best)
        ∧ t < 1 ∧ i < 1
        ∧ (∀ t' < t, SatM.Gsat.trial_solved [[(1 : Int)]] 1 0 1
            (fun _ => true) (fun _ => (⟨0, 0, 0⟩ : Draw)) = false)
        ∧ (SatM.Gsat.trial_solved [[(1 : Int)]] 1 0 1
             (fun _ => true) (fun _ => (⟨0, 0, 0⟩ : Draw)) = true
           ∨ t = 1 - 1) :=
  ⟨⟨le_refl 1, by decide, by decide⟩,
   c5_run_contract [[(1 : Int)]] 1 0 1 1 (fun _ _ => true)
     (fun _ _ => (⟨0, 0, 0⟩ : Draw)) (le_refl 1) (le_refl 1) (le_refl 1)
     (by decide) (by decide)⟩

end RunContractMain
